import Mathlib

/-!
StrBlob and StrBlobPtr (exercise 12.19): a shallow embedding of
`src/exercise/chapter_12/12_19_weak_ptr.h`.

The C++ objects live in a heap of `std::shared_ptr` control blocks.  A control
block holds the managed `vector<string>` and the strong reference count
(`use_count`); the vector is destroyed when the count drops to zero.  A
`shared_ptr` or a `weak_ptr` is the address of a control block, or nothing.
The weak reference count is not part of the model: no operation of the
program reads it.

Member functions are written in explicit state passing style: they take the
heap and return the outcome of the call together with the heap after the
call, also when the call throws.
-/

namespace StrBlobModel

/-- Largest value of `size_t` on a 64 bit target. -/
def SIZE_MAX : Nat := 2 ^ 64 - 1

/-- Control block of a `shared_ptr<vector<string>>`: the managed vector and
the number of `shared_ptr`s that own it. -/
structure Cell where
  vec : List String
  use_count : Nat
deriving DecidableEq, Repr

/-- The heap: control blocks, addressed by position. -/
abbrev Heap := List Cell

/-- A `std::shared_ptr<vector<string>>`: empty, or the address of a block. -/
abbrev shared_ptr := Option Nat

/-- A `std::weak_ptr<vector<string>>`: empty, or the address of a block. -/
abbrev weak_ptr := Option Nat

/-- The exceptions the program throws, and a marker for an access through a
`shared_ptr` that owns no live vector (undefined behaviour in C++, never
reached from a handle that owns its storage). -/
inductive Exn where
  | out_of_range (what : String)
  | runtime_error (what : String)
  | undefined
deriving DecidableEq, Repr

/-- Equality of outcomes is decidable. -/
instance decEqExcept {ε α : Type} [DecidableEq ε] [DecidableEq α] :
    DecidableEq (Except ε α)
  | .ok a, .ok b =>
    if hab : a = b then isTrue (by rw [hab]) else isFalse (fun hc => hab (by cases hc; rfl))
  | .error a, .error b =>
    if hab : a = b then isTrue (by rw [hab]) else isFalse (fun hc => hab (by cases hc; rfl))
  | .ok _, .error _ => isFalse (fun hc => by cases hc)
  | .error _, .ok _ => isFalse (fun hc => by cases hc)

/-- The live vector a pointer refers to, if there is one (`*p`). -/
def Heap.vec? (h : Heap) (p : Option Nat) : Option (List String) :=
  match p with
  | none => none
  | some a =>
    match h[a]? with
    | none => none
    | some c => if c.use_count = 0 then none else some c.vec

/-- The strong count `p.use_count()`. -/
def Heap.use_count (h : Heap) (p : Option Nat) : Nat :=
  match p with
  | none => 0
  | some a =>
    match h[a]? with
    | none => 0
    | some c => c.use_count

/-- Replace the vector managed by the block at address `a`. -/
def Heap.store (h : Heap) (a : Nat) (v : List String) : Heap :=
  match h[a]? with
  | none => h
  | some c => h.set a { c with vec := v }

/-- The call `std::make_shared<vector<string>>(il)`: a fresh block owned once. -/
def make_shared (il : List String) (h : Heap) : shared_ptr × Heap :=
  (some h.length, h ++ [{ vec := il, use_count := 1 }])

/-- Copy construction of a `shared_ptr`: one more owner. -/
def shared_ptr_copy (p : shared_ptr) (h : Heap) : shared_ptr × Heap :=
  match p with
  | none => (none, h)
  | some a =>
    match h[a]? with
    | none => (some a, h)
    | some c => (some a, h.set a { c with use_count := c.use_count + 1 })

/-- Destruction of a `shared_ptr`: one owner less; the last owner destroys the
vector. -/
def release (h : Heap) (p : shared_ptr) : Heap :=
  match p with
  | none => h
  | some a =>
    match h[a]? with
    | none => h
    | some c =>
      if c.use_count ≤ 1 then h.set a { vec := [], use_count := 0 }
      else h.set a { c with use_count := c.use_count - 1 }

/-- The call `wptr.lock()`: an owning pointer when the vector is still around
(one more owner), an empty pointer otherwise. -/
def lock (w : weak_ptr) (h : Heap) : shared_ptr × Heap :=
  match w with
  | none => (none, h)
  | some a =>
    match h[a]? with
    | none => (none, h)
    | some c =>
      if c.use_count = 0 then (none, h)
      else (some a, h.set a { c with use_count := c.use_count + 1 })

/-- Class `StrBlob`: its only member is `data`. -/
structure StrBlob where
  data : shared_ptr
deriving DecidableEq, Repr

/-- Class `StrBlobPtr`: members `wptr` and `curr`. -/
structure StrBlobPtr where
  wptr : weak_ptr
  curr : Nat
deriving DecidableEq, Repr

namespace StrBlob

/-- The constructor `StrBlob()`. -/
def mk_default (h : Heap) : StrBlob × Heap :=
  let r := make_shared [] h
  ({ data := r.1 }, r.2)

/-- The constructor `StrBlob(std::initializer_list<string> il)`. -/
def mk_il (il : List String) (h : Heap) : StrBlob × Heap :=
  let r := make_shared il h
  ({ data := r.1 }, r.2)

/-- The implicit copy constructor: the copy shares `data`. -/
def copy (self : StrBlob) (h : Heap) : StrBlob × Heap :=
  let r := shared_ptr_copy self.data h
  ({ data := r.1 }, r.2)

/-- The implicit destructor: destroys `data`. -/
def destroy (self : StrBlob) (h : Heap) : Heap :=
  release h self.data

/-- Member `size() const`. -/
def size (self : StrBlob) (h : Heap) : Except Exn Nat :=
  match h.vec? self.data with
  | none => .error .undefined
  | some v => .ok v.length

/-- Member `empty() const`. -/
def empty (self : StrBlob) (h : Heap) : Except Exn Bool :=
  match h.vec? self.data with
  | none => .error .undefined
  | some v => .ok v.isEmpty

/-- The private member `check(i, msg) const`. -/
def check (self : StrBlob) (i : Nat) (msg : String) (h : Heap) : Except Exn Unit :=
  match h.vec? self.data with
  | none => .error .undefined
  | some v => if i ≥ v.length then .error (.out_of_range msg) else .ok ()

/-- Member `push_back(t)`. -/
def push_back (self : StrBlob) (t : String) (h : Heap) : Except Exn Unit × Heap :=
  match self.data, h.vec? self.data with
  | some a, some v => (.ok (), h.store a (v ++ [t]))
  | _, _ => (.error .undefined, h)

/-- Member `pop_back()`. -/
def pop_back (self : StrBlob) (h : Heap) : Except Exn Unit × Heap :=
  match self.check 0 "pop_back on empty StrBlob" h with
  | .error e => (.error e, h)
  | .ok () =>
    match self.data, h.vec? self.data with
    | some a, some v => (.ok (), h.store a v.dropLast)
    | _, _ => (.error .undefined, h)

/-- Member `front()`. -/
def front (self : StrBlob) (h : Heap) : Except Exn String × Heap :=
  match self.check 0 "front on empty StrBlob" h with
  | .error e => (.error e, h)
  | .ok () =>
    match (h.vec? self.data).bind List.head? with
    | some s => (.ok s, h)
    | none => (.error .undefined, h)

/-- Member `back()`. -/
def back (self : StrBlob) (h : Heap) : Except Exn String × Heap :=
  match self.check 0 "back on empty StrBlob" h with
  | .error e => (.error e, h)
  | .ok () =>
    match (h.vec? self.data).bind List.getLast? with
    | some s => (.ok s, h)
    | none => (.error .undefined, h)

/-- Member `front() const`. -/
def front_const (self : StrBlob) (h : Heap) : Except Exn String × Heap :=
  match self.check 0 "front on empty StrBlob" h with
  | .error e => (.error e, h)
  | .ok () =>
    match (h.vec? self.data).bind List.head? with
    | some s => (.ok s, h)
    | none => (.error .undefined, h)

/-- Member `back() const`. -/
def back_const (self : StrBlob) (h : Heap) : Except Exn String × Heap :=
  match self.check 0 "back on empty StrBlob" h with
  | .error e => (.error e, h)
  | .ok () =>
    match (h.vec? self.data).bind List.getLast? with
    | some s => (.ok s, h)
    | none => (.error .undefined, h)

end StrBlob

namespace StrBlobPtr

/-- The constructor `StrBlobPtr()`. -/
def mk_default : StrBlobPtr :=
  { wptr := none, curr := 0 }

/-- The constructor `StrBlobPtr(StrBlob &a, size_t sz = 0)`. -/
def mk_at (a : StrBlob) (sz : Nat) : StrBlobPtr :=
  { wptr := a.data, curr := sz }

/-- Member `operator!=(p)`. -/
def operator_ne (self p : StrBlobPtr) : Bool :=
  p.curr != self.curr

/-- The private member `check(i, msg) const`.  On success the caller owns the
returned `shared_ptr`; when it throws, the local `ret` has been destroyed. -/
def check (self : StrBlobPtr) (i : Nat) (msg : String) (h : Heap) :
    Except Exn shared_ptr × Heap :=
  let r := lock self.wptr h
  match r.1 with
  | none => (.error (.runtime_error "unbound StrBlobPtr"), r.2)
  | some a =>
    match r.2.vec? (some a) with
    | none => (.error .undefined, release r.2 (some a))
    | some v =>
      if i ≥ v.length then (.error (.out_of_range msg), release r.2 (some a))
      else (.ok (some a), r.2)

/-- Member `deref() const`: the local `p` is destroyed on return. -/
def deref (self : StrBlobPtr) (h : Heap) : Except Exn String × Heap :=
  match self.check self.curr "dereference past end" h with
  | (.error e, h1) => (.error e, h1)
  | (.ok p, h1) =>
    match (h1.vec? p).bind (fun v => v[self.curr]?) with
    | some s => (.ok s, release h1 p)
    | none => (.error .undefined, release h1 p)

/-- Member `incr()`: returns the value `*this` refers to after the call, the
cursor itself after the call, and the heap.  The temporary that `check`
returns is destroyed before `++curr`. -/
def incr (self : StrBlobPtr) (h : Heap) : Except Exn StrBlobPtr × StrBlobPtr × Heap :=
  match self.check self.curr "increment past end of StrBlobPtr" h with
  | (.error e, h1) => (.error e, self, h1)
  | (.ok p, h1) =>
    let h2 := release h1 p
    let self1 : StrBlobPtr := { self with curr := (self.curr + 1) % 2 ^ 64 }
    (.ok self1, self1, h2)

end StrBlobPtr

namespace StrBlob

/-- Member `begin()`. -/
def begin (self : StrBlob) (h : Heap) : Except Exn StrBlobPtr × Heap :=
  (.ok (StrBlobPtr.mk_at self 0), h)

/-- Member `end()`. -/
def end_ (self : StrBlob) (h : Heap) : Except Exn StrBlobPtr × Heap :=
  match h.vec? self.data with
  | none => (.error .undefined, h)
  | some v => (.ok (StrBlobPtr.mk_at self v.length), h)

end StrBlob

/-- Releasing handles one after the other: each `StrBlob` in the list is
destroyed. -/
def destroy_all (handles : List StrBlob) (h : Heap) : Heap :=
  handles.foldl (fun h1 T => T.destroy h1) h

/-- The first loop of `main`: every line read from the file is pushed onto
`blob`, in order. -/
def read_loop (blob : StrBlob) : List String → Heap → Except Exn Unit × Heap
  | [], h => (.ok (), h)
  | str :: rest, h =>
    match blob.push_back str h with
    | (.error e, h1) => (.error e, h1)
    | (.ok (), h1) => read_loop blob rest h1

/-- State of the second loop of `main` when it stops: how it stopped, the
cursor `pbeg`, the heap, the lines written to `std::cout`, and how many times
`incr` returned normally. -/
structure LoopState where
  result : Except Exn Unit
  pbeg : StrBlobPtr
  heap : Heap
  out : List String
  incrs : Nat
deriving DecidableEq, Repr

/-- The second loop of `main`:
`for (...; pbeg != pend; pbeg.incr()) std::cout << pbeg.deref() << std::endl;`.
Every test of the condition costs one unit of fuel; `none` means the fuel ran
out before the loop stopped. -/
def print_loop : Nat → StrBlobPtr → StrBlobPtr → Heap → List String → Nat → Option LoopState
  | 0, _, _, _, _, _ => none
  | fuel + 1, pbeg, pend, h, out, n =>
    if pbeg.operator_ne pend then
      match pbeg.deref h with
      | (.error e, h1) => some ⟨.error e, pbeg, h1, out, n⟩
      | (.ok s, h1) =>
        match pbeg.incr h1 with
        | (.error e, p, h2) => some ⟨.error e, p, h2, out ++ [s], n⟩
        | (.ok _, p, h2) => print_loop fuel p pend h2 (out ++ [s]) (n + 1)
    else some ⟨.ok (), pbeg, h, out, n⟩

/-- The function `main`, run on a heap `h` with the lines `book` of the input
file: the lines written to `std::cout`, and the heap at exit, after `blob` has
been destroyed. -/
def main (book : List String) (h : Heap) (fuel : Nat) :
    Option (Except Exn Unit × List String × Heap) :=
  let b := StrBlob.mk_default h
  let blob := b.1
  match read_loop blob book b.2 with
  | (.error e, h1) => some (.error e, [], blob.destroy h1)
  | (.ok (), h1) =>
    match blob.begin h1 with
    | (.error e, h2) => some (.error e, [], blob.destroy h2)
    | (.ok pbeg, h2) =>
      match blob.end_ h2 with
      | (.error e, h3) => some (.error e, [], blob.destroy h3)
      | (.ok pend, h3) =>
        match print_loop fuel pbeg pend h3 [] 0 with
        | none => none
        | some st => some (st.result, st.out, blob.destroy st.heap)

/-- A call that client code makes on one `StrBlob` and one cursor. -/
inductive Call where
  | push_back (t : String)
  | pop_back
  | incr
deriving DecidableEq, Repr

/-- A client that makes the given calls one after the other, the first two on
the `StrBlob` `S`, the third on its cursor, and goes on after a call that
throws: the outcome of every call in order, the cursor and the heap at the
end. -/
def run_calls (S : StrBlob) : List Call → StrBlobPtr → Heap →
    List (Except Exn Unit) × StrBlobPtr × Heap
  | [], D, h => ([], D, h)
  | .push_back t :: rest, D, h =>
    let r := S.push_back t h
    let rs := run_calls S rest D r.2
    (r.1 :: rs.1, rs.2)
  | .pop_back :: rest, D, h =>
    let r := S.pop_back h
    let rs := run_calls S rest D r.2
    (r.1 :: rs.1, rs.2)
  | .incr :: rest, D, h =>
    let r := D.incr h
    let rs := run_calls S rest r.2.1 r.2.2
    (r.1.map (fun _ => ()) :: rs.1, rs.2)

/-- How many of the calls are `push_back`. -/
def count_push : List Call → Nat
  | [] => 0
  | .push_back _ :: rest => count_push rest + 1
  | _ :: rest => count_push rest

/-- How many of the calls are of the kind `c` and returned normally, given the
outcome of every call. -/
def count_ok (c : Call) : List Call → List (Except Exn Unit) → Nat
  | d :: rest, .ok () :: outs => (if d = c then 1 else 0) + count_ok c rest outs
  | _ :: rest, .error _ :: outs => count_ok c rest outs
  | _, _ => 0

/-- The sequence the calls describe, on plain lists: `push_back` adds at the
end, `pop_back` removes the last element if there is one, `incr` does not
touch the sequence. -/
def seq_after : List String → List Call → List String
  | v, [] => v
  | v, .push_back t :: rest => seq_after (v ++ [t]) rest
  | v, .pop_back :: rest => seq_after v.dropLast rest
  | v, .incr :: rest => seq_after v rest

end StrBlobModel

/-!
Exercises 12.6 and 12.7: a shallow embedding of
`src/exercise/12_06_compareNewDeleteWithShared_ptr.h`.
-/

namespace Exercise12

/-- Control block of a `shared_ptr<vector<int>>`. -/
structure Block where
  vec : List Int
  use_count : Nat
deriving DecidableEq, Repr

/-- State of the two programs: the ints that `std::cin >> i` is going to
extract, in order (the extraction after the last one fails), the text written
to `std::cout`, the vectors made by `new` (`none` once deleted), and the
control blocks of the `shared_ptr`s. -/
structure World where
  cin : List Int
  cout : String
  free_store : List (Option (List Int))
  blocks : List Block
deriving DecidableEq, Repr

/-- The call `vec->push_back(i)` through a plain pointer; `none` when the
pointer refers to no vector. -/
def Ptr_push_back (fs : List (Option (List Int))) (vec : Nat) (i : Int) :
    Option (List (Option (List Int))) :=
  match fs[vec]? with
  | some (some v) => some (fs.set vec (some (v ++ [i])))
  | _ => none

/-- The call `vec->push_back(i)` through a `shared_ptr`; `none` when the
pointer owns no vector. -/
def Sptr_push_back (bs : List Block) (vec : Nat) (i : Int) : Option (List Block) :=
  match bs[vec]? with
  | some b => if b.use_count = 0 then none else some (bs.set vec { b with vec := b.vec ++ [i] })
  | none => none

/-- The loop body of `print`, for every element: `std::cout << i << " "`. -/
def print_elems (v : List Int) (cout : String) : String :=
  v.foldl (fun out i => out ++ toString i ++ " ") cout

/-- The function `make_dynamically`: `new std::vector<int>{}`. -/
def make_dynamically (w : World) : Nat × World :=
  (w.free_store.length, { w with free_store := w.free_store ++ [some []] })

/-- The loop of `populate(Ptr vec)`: the prompt is written before every
extraction, the failing one included; every value extracted is pushed. -/
def populate_Ptr_loop (vec : Nat) : List Int → World → Option World
  | [], w => some { w with cout := w.cout ++ "Pls Enter:\n", cin := [] }
  | i :: rest, w =>
    match Ptr_push_back w.free_store vec i with
    | none => none
    | some fs =>
      populate_Ptr_loop vec rest
        { w with cout := w.cout ++ "Pls Enter:\n", cin := rest, free_store := fs }

/-- The function `populate(Ptr vec)`; `none` stands for undefined behaviour. -/
def populate_Ptr (vec : Nat) (w : World) : Option (Nat × World) :=
  match populate_Ptr_loop vec w.cin w with
  | none => none
  | some w1 => some (vec, w1)

/-- The function `print(Ptr vec)`. -/
def print_Ptr (vec : Nat) (w : World) : Option World :=
  match w.free_store[vec]? with
  | some (some v) => some { w with cout := print_elems v w.cout }
  | _ => none

/-- The first `main`: exercise 12.6. -/
def main_12_06 (w : World) : Option (Int × World) :=
  let m := make_dynamically w
  match populate_Ptr m.1 m.2 with
  | none => none
  | some (vec, w1) =>
    match print_Ptr vec w1 with
    | none => none
    | some w2 =>
      let w3 : World := { w2 with cout := w2.cout ++ "\n" }
      some (0, { w3 with free_store := w3.free_store.set vec none })

/-- The function `make_with_shared_ptr`: `std::make_shared<std::vector<int>>()`. -/
def make_with_shared_ptr (w : World) : Nat × World :=
  (w.blocks.length, { w with blocks := w.blocks ++ [{ vec := [], use_count := 1 }] })

/-- The loop of `populate(Sptr vec)`. -/
def populate_Sptr_loop (vec : Nat) : List Int → World → Option World
  | [], w => some { w with cout := w.cout ++ "Pls Enter:\n", cin := [] }
  | i :: rest, w =>
    match Sptr_push_back w.blocks vec i with
    | none => none
    | some bs =>
      populate_Sptr_loop vec rest
        { w with cout := w.cout ++ "Pls Enter:\n", cin := rest, blocks := bs }

/-- The function `populate(Sptr vec)`: the parameter, which the caller has
constructed, is moved into the value returned, so no count changes. -/
def populate_Sptr (vec : Nat) (w : World) : Option (Nat × World) :=
  match populate_Sptr_loop vec w.cin w with
  | none => none
  | some w1 => some (vec, w1)

/-- Copy construction of a `Sptr`. -/
def Sptr_copy (vec : Nat) (w : World) : World :=
  match w.blocks[vec]? with
  | some b => { w with blocks := w.blocks.set vec { b with use_count := b.use_count + 1 } }
  | none => w

/-- Destruction of a `Sptr`: the last owner destroys the vector. -/
def Sptr_release (vec : Nat) (w : World) : World :=
  match w.blocks[vec]? with
  | some b =>
    if b.use_count ≤ 1 then { w with blocks := w.blocks.set vec { vec := [], use_count := 0 } }
    else { w with blocks := w.blocks.set vec { b with use_count := b.use_count - 1 } }
  | none => w

/-- The function `print(Sptr vec)`: the parameter, which the caller has
constructed, is destroyed on return. -/
def print_Sptr (vec : Nat) (w : World) : Option World :=
  match w.blocks[vec]? with
  | some b =>
    if b.use_count = 0 then none
    else some (Sptr_release vec { w with cout := print_elems b.vec w.cout })
  | none => none

/-- The second `main`: exercise 12.7. -/
def main_12_07 (w : World) : Option (Int × World) :=
  let m := make_with_shared_ptr w
  match populate_Sptr m.1 m.2 with
  | none => none
  | some (vec, w1) =>
    match print_Sptr vec (Sptr_copy vec w1) with
    | none => none
    | some w2 =>
      let w3 : World := { w2 with cout := w2.cout ++ "\n" }
      some (0, Sptr_release vec w3)

/-- The text the exercises ask for, in the words of the claim: every value in
order, each followed by a single space. -/
def spec_text : List Int → String
  | [] => ""
  | x :: xs => toString x ++ " " ++ spec_text xs

end Exercise12

namespace StrBlobModel

/-! The heap -/

theorem vec?_some_iff (h : Heap) (p : Option Nat) (v : List String) :
    h.vec? p = some v ↔
      ∃ a c, p = some a ∧ h[a]? = some c ∧ c.use_count ≠ 0 ∧ c.vec = v := by
  cases p with
  | none => simp [Heap.vec?]
  | some a =>
    cases hc : h[a]? with
    | none => simp [Heap.vec?, hc]
    | some c =>
      by_cases h0 : c.use_count = 0
      · simp [Heap.vec?, hc, h0]
      · simp [Heap.vec?, hc, h0]

theorem set_self_of_getElem? (h : Heap) (a : Nat) (c : Cell) (hc : h[a]? = some c) :
    h.set a c = h := by
  apply List.ext_getElem?
  intro i
  by_cases hi : a = i
  · subst hi
    rw [List.getElem?_set_self (List.getElem?_eq_some.1 hc).1, hc]
  · rw [List.getElem?_set_ne hi]

/-- Locking a live vector and destroying the lock leaves the heap as it was. -/
theorem release_lock (h : Heap) (a : Nat) (v : List String)
    (hv : h.vec? (some a) = some v) :
    (lock (some a) h).1 = some a ∧ (lock (some a) h).2.vec? (some a) = some v ∧
      release (lock (some a) h).2 (some a) = h := by
  obtain ⟨a1, c, ha, hc, h0, hcv⟩ := (vec?_some_iff h _ v).1 hv
  cases ha
  have hlt : a < h.length := (List.getElem?_eq_some.1 hc).1
  have h1 : ¬ c.use_count + 1 ≤ 1 := by omega
  refine ⟨?_, ?_, ?_⟩
  · simp [lock, hc, h0]
  · simp [lock, hc, h0, Heap.vec?, List.getElem?_set_self hlt, hcv]
  · simp [lock, hc, h0, release, List.getElem?_set_self hlt, h1]
    exact set_self_of_getElem? h a c hc

/-- Locking a pointer whose vector is gone gives the empty pointer. -/
theorem lock_of_vec?_none (h : Heap) (w : Option Nat) (hv : h.vec? w = none) :
    lock w h = (none, h) := by
  cases w with
  | none => rfl
  | some a =>
    cases hc : h[a]? with
    | none => simp [lock, hc]
    | some c =>
      by_cases h0 : c.use_count = 0
      · simp [lock, hc, h0]
      · simp [Heap.vec?, hc, h0] at hv

/-! The cursor: what `check`, `deref` and `incr` compute -/

theorem check_of_gone (C : StrBlobPtr) (i : Nat) (msg : String) (h : Heap)
    (hv : h.vec? C.wptr = none) :
    C.check i msg h = (.error (.runtime_error "unbound StrBlobPtr"), h) := by
  simp [StrBlobPtr.check, lock_of_vec?_none h C.wptr hv]

theorem check_of_past (C : StrBlobPtr) (i : Nat) (msg : String) (h : Heap)
    (v : List String) (hv : h.vec? C.wptr = some v) (hi : v.length ≤ i) :
    C.check i msg h = (.error (.out_of_range msg), h) := by
  obtain ⟨a, c, ha, -⟩ := (vec?_some_iff h _ v).1 hv
  rw [ha] at hv
  obtain ⟨h1, h2, h3⟩ := release_lock h a v hv
  simp only [StrBlobPtr.check, ha, h1, h2]
  simp [hi, h3]

theorem check_of_valid (C : StrBlobPtr) (i : Nat) (msg : String) (h : Heap)
    (v : List String) (hv : h.vec? C.wptr = some v) (hi : i < v.length) :
    C.check i msg h = (.ok C.wptr, (lock C.wptr h).2) := by
  obtain ⟨a, c, ha, -⟩ := (vec?_some_iff h _ v).1 hv
  rw [ha] at hv
  obtain ⟨h1, h2, h3⟩ := release_lock h a v hv
  simp only [StrBlobPtr.check, ha, h1, h2]
  simp [Nat.not_le.2 hi]

theorem deref_of_gone (C : StrBlobPtr) (h : Heap) (hv : h.vec? C.wptr = none) :
    C.deref h = (.error (.runtime_error "unbound StrBlobPtr"), h) := by
  simp [StrBlobPtr.deref, check_of_gone C _ _ h hv]

theorem deref_of_past (C : StrBlobPtr) (h : Heap) (v : List String)
    (hv : h.vec? C.wptr = some v) (hi : v.length ≤ C.curr) :
    C.deref h = (.error (.out_of_range "dereference past end"), h) := by
  simp [StrBlobPtr.deref, check_of_past C _ _ h v hv hi]

theorem deref_of_valid (C : StrBlobPtr) (h : Heap) (v : List String)
    (hv : h.vec? C.wptr = some v) (hi : C.curr < v.length) :
    C.deref h = (.ok (v[C.curr]), h) := by
  obtain ⟨a, c, ha, -⟩ := (vec?_some_iff h _ v).1 hv
  have hv1 := hv
  rw [ha] at hv1
  obtain ⟨h1, h2, h3⟩ := release_lock h a v hv1
  simp only [StrBlobPtr.deref, check_of_valid C _ _ h v hv hi]
  simp [ha, h2, h3, List.getElem?_eq_getElem hi]

theorem incr_of_gone (C : StrBlobPtr) (h : Heap) (hv : h.vec? C.wptr = none) :
    C.incr h = (.error (.runtime_error "unbound StrBlobPtr"), C, h) := by
  simp [StrBlobPtr.incr, check_of_gone C _ _ h hv]

theorem incr_of_past (C : StrBlobPtr) (h : Heap) (v : List String)
    (hv : h.vec? C.wptr = some v) (hi : v.length ≤ C.curr) :
    C.incr h = (.error (.out_of_range "increment past end of StrBlobPtr"), C, h) := by
  simp [StrBlobPtr.incr, check_of_past C _ _ h v hv hi]

theorem incr_of_valid (C : StrBlobPtr) (h : Heap) (v : List String)
    (hv : h.vec? C.wptr = some v) (hi : C.curr < v.length) :
    C.incr h = (.ok { wptr := C.wptr, curr := (C.curr + 1) % 2 ^ 64 },
      { wptr := C.wptr, curr := (C.curr + 1) % 2 ^ 64 }, h) := by
  obtain ⟨a, c, ha, -⟩ := (vec?_some_iff h _ v).1 hv
  have hv1 := hv
  rw [ha] at hv1
  obtain ⟨h1, h2, h3⟩ := release_lock h a v hv1
  simp only [StrBlobPtr.incr, check_of_valid C _ _ h v hv hi]
  simp [ha, h3]

/-! Releasing handles -/

theorem use_count_release (h : Heap) (p : Option Nat) :
    (release h p).use_count p = h.use_count p - 1 := by
  cases p with
  | none => rfl
  | some a =>
    cases hc : h[a]? with
    | none => simp [release, Heap.use_count, hc]
    | some c =>
      have hlt : a < h.length := (List.getElem?_eq_some.1 hc).1
      by_cases h1 : c.use_count ≤ 1
      · simp [release, Heap.use_count, hc, h1, List.getElem?_set_self hlt]
      · simp [release, Heap.use_count, hc, h1, List.getElem?_set_self hlt]

theorem use_count_destroy_all (handles : List StrBlob) (p : Option Nat) :
    ∀ h : Heap, (∀ T ∈ handles, T.data = p) →
      (destroy_all handles h).use_count p = h.use_count p - handles.length := by
  induction handles with
  | nil => intro h _; simp [destroy_all]
  | cons T rest ih =>
    intro h hall
    have hT : T.data = p := hall T (List.mem_cons_self _ _)
    have hrest : ∀ U ∈ rest, U.data = p := fun U hU => hall U (List.mem_cons_of_mem _ hU)
    have := ih (T.destroy h) hrest
    simp only [destroy_all, List.foldl_cons] at this ⊢
    rw [this, StrBlob.destroy, hT, use_count_release]
    simp only [List.length_cons]
    omega

theorem vec?_none_of_use_count (h : Heap) (p : Option Nat) (h0 : h.use_count p = 0) :
    h.vec? p = none := by
  cases p with
  | none => rfl
  | some a =>
    cases hc : h[a]? with
    | none => simp [Heap.vec?, hc]
    | some c =>
      have : c.use_count = 0 := by simpa [Heap.use_count, hc] using h0
      simp [Heap.vec?, hc, this]

/-! The sequence: `push_back`, `pop_back`, `front`, `back` -/

theorem vec?_store (h : Heap) (a : Nat) (v w : List String)
    (hv : h.vec? (some a) = some v) : (h.store a w).vec? (some a) = some w := by
  obtain ⟨a1, c, ha, hc, h0, -⟩ := (vec?_some_iff h _ v).1 hv
  cases ha
  have hlt : a < h.length := (List.getElem?_eq_some.1 hc).1
  simp [Heap.store, hc, Heap.vec?, List.getElem?_set_self hlt, h0]

theorem use_count_store (h : Heap) (a : Nat) (w : List String) (p : Option Nat) :
    (h.store a w).use_count p = h.use_count p := by
  cases hc : h[a]? with
  | none => simp [Heap.store, hc]
  | some c =>
    have hlt : a < h.length := (List.getElem?_eq_some.1 hc).1
    cases p with
    | none => rfl
    | some b =>
      by_cases hab : a = b
      · subst hab
        simp [Heap.store, hc, Heap.use_count, List.getElem?_set_self hlt]
      · simp [Heap.store, hc, Heap.use_count, List.getElem?_set_ne hab]

theorem push_back_eq (S : StrBlob) (t : String) (h : Heap) (a : Nat) (v : List String)
    (ha : S.data = some a) (hv : h.vec? S.data = some v) :
    S.push_back t h = (.ok (), h.store a (v ++ [t])) := by
  simp only [StrBlob.push_back, hv]
  simp [ha]

theorem push_back_vec? (S : StrBlob) (t : String) (h : Heap) (v : List String)
    (hv : h.vec? S.data = some v) :
    (S.push_back t h).1 = .ok () ∧ (S.push_back t h).2.vec? S.data = some (v ++ [t]) := by
  obtain ⟨a, c, ha, -⟩ := (vec?_some_iff h _ v).1 hv
  rw [push_back_eq S t h a v ha hv]
  refine ⟨rfl, ?_⟩
  rw [ha] at hv ⊢
  exact vec?_store h a v _ hv

theorem check_eq (S : StrBlob) (i : Nat) (msg : String) (h : Heap) (v : List String)
    (hv : h.vec? S.data = some v) :
    S.check i msg h = if i ≥ v.length then .error (.out_of_range msg) else .ok () := by
  simp [StrBlob.check, hv]

theorem pop_back_nil (S : StrBlob) (h : Heap) (hv : h.vec? S.data = some []) :
    S.pop_back h = (.error (.out_of_range "pop_back on empty StrBlob"), h) := by
  simp [StrBlob.pop_back, check_eq S _ _ h [] hv]

theorem pop_back_ne_nil (S : StrBlob) (h : Heap) (a : Nat) (v : List String)
    (ha : S.data = some a) (hv : h.vec? S.data = some v) (hne : v ≠ []) :
    S.pop_back h = (.ok (), h.store a v.dropLast) := by
  have hpos : ¬ v.length = 0 := by simpa using hne
  simp only [StrBlob.pop_back, check_eq S _ _ h v hv, hv]
  simp [hpos, ha]

theorem read_loop_vec? (S : StrBlob) (lines : List String) :
    ∀ (h : Heap) (v : List String), h.vec? S.data = some v →
      (read_loop S lines h).1 = .ok () ∧
        (read_loop S lines h).2.vec? S.data = some (v ++ lines) := by
  induction lines with
  | nil => intro h v hv; simp [read_loop, hv]
  | cons t rest ih =>
    intro h v hv
    obtain ⟨a, c, ha, -⟩ := (vec?_some_iff h _ v).1 hv
    have hp := push_back_vec? S t h v hv
    rw [push_back_eq S t h a v ha hv] at hp
    have := ih (h.store a (v ++ [t])) (v ++ [t]) hp.2
    simp only [read_loop, push_back_eq S t h a v ha hv]
    simpa using this

/-! Traversal -/

theorem print_loop_run (w : Option Nat) (h : Heap) (v : List String)
    (hv : h.vec? w = some v) (hsz : v.length ≤ SIZE_MAX) (pend : StrBlobPtr)
    (hend : pend.curr = v.length) :
    ∀ (k i : Nat) (out : List String) (n fuel : Nat), i + k = v.length → k < fuel →
      print_loop fuel ⟨w, i⟩ pend h out n =
        some ⟨.ok (), ⟨w, v.length⟩, h, out ++ v.drop i, n + k⟩ := by
  intro k
  induction k with
  | zero =>
    intro i out n fuel hik hf
    obtain ⟨f, rfl⟩ : ∃ f, fuel = f + 1 := ⟨fuel - 1, by omega⟩
    have hi : i = v.length := by omega
    subst hi
    simp [print_loop, StrBlobPtr.operator_ne, hend]
  | succ k ih =>
    intro i out n fuel hik hf
    obtain ⟨f, rfl⟩ : ∃ f, fuel = f + 1 := ⟨fuel - 1, by omega⟩
    have hi : i < v.length := by omega
    have hne : (pend.curr != i) = true := by
      rw [hend]; simp; omega
    have hmod : (i + 1) % 2 ^ 64 = i + 1 := by
      apply Nat.mod_eq_of_lt
      unfold SIZE_MAX at hsz
      omega
    have hd := deref_of_valid ⟨w, i⟩ h v hv hi
    have hinc := incr_of_valid ⟨w, i⟩ h v hv hi
    simp only [hmod] at hinc
    simp only [print_loop, StrBlobPtr.operator_ne, hne, if_true, hd, hinc]
    rw [ih (i + 1) (out ++ [v[i]]) (n + 1) f (by omega) (by omega)]
    rw [List.drop_eq_getElem_cons hi]
    simp only [List.append_assoc, List.singleton_append, Nat.add_assoc, Nat.add_comm 1 k]

theorem front_eq (S : StrBlob) (h : Heap) (v : List String)
    (hv : h.vec? S.data = some v) :
    S.front h = (match v[0]? with
      | some s => (.ok s, h)
      | none => (.error (.out_of_range "front on empty StrBlob"), h)) := by
  cases v with
  | nil => simp [StrBlob.front, check_eq S _ _ h [] hv]
  | cons x xs => simp [StrBlob.front, check_eq S _ _ h (x :: xs) hv, hv]

theorem back_eq (S : StrBlob) (h : Heap) (v : List String)
    (hv : h.vec? S.data = some v) :
    S.back h = (match v[v.length - 1]? with
      | some s => (.ok s, h)
      | none => (.error (.out_of_range "back on empty StrBlob"), h)) := by
  cases v with
  | nil => simp [StrBlob.back, check_eq S _ _ h [] hv]
  | cons x xs =>
    simp only [StrBlob.back, check_eq S _ _ h (x :: xs) hv, hv, Option.some_bind,
      List.getLast?_eq_getElem?]
    simp

theorem front_const_eq : StrBlob.front_const = StrBlob.front := rfl

theorem back_const_eq : StrBlob.back_const = StrBlob.back := rfl

theorem mk_default_vec? (h : Heap) :
    (StrBlob.mk_default h).2.vec? (StrBlob.mk_default h).1.data = some [] := by
  simp [StrBlob.mk_default, make_shared, Heap.vec?]

theorem mk_il_vec? (il : List String) (h : Heap) :
    (StrBlob.mk_il il h).2.vec? (StrBlob.mk_il il h).1.data = some il := by
  simp [StrBlob.mk_il, make_shared, Heap.vec?]

/-! Frame lemmas and the client driver -/

theorem deref_heap (C : StrBlobPtr) (h : Heap) : (C.deref h).2 = h := by
  cases hv : h.vec? C.wptr with
  | none => rw [deref_of_gone C h hv]
  | some v =>
    by_cases hi : C.curr < v.length
    · rw [deref_of_valid C h v hv hi]
    · rw [deref_of_past C h v hv (Nat.le_of_not_lt hi)]

theorem incr_heap (C : StrBlobPtr) (h : Heap) : (C.incr h).2.2 = h := by
  cases hv : h.vec? C.wptr with
  | none => rw [incr_of_gone C h hv]
  | some v =>
    by_cases hi : C.curr < v.length
    · rw [incr_of_valid C h v hv hi]
    · rw [incr_of_past C h v hv (Nat.le_of_not_lt hi)]

theorem pop_back_vec? (S : StrBlob) (h : Heap) (v : List String)
    (hv : h.vec? S.data = some v) :
    (S.pop_back h).2.vec? S.data = some v.dropLast ∧
      (S.pop_back h).1 =
        (if v = [] then .error (.out_of_range "pop_back on empty StrBlob") else .ok ()) := by
  obtain ⟨a, c, ha, -⟩ := (vec?_some_iff h _ v).1 hv
  by_cases hne : v = []
  · subst hne
    rw [pop_back_nil S h hv]
    exact ⟨hv, by simp⟩
  · rw [pop_back_ne_nil S h a v ha hv hne]
    refine ⟨?_, by simp [hne]⟩
    rw [ha] at hv ⊢
    exact vec?_store h a v _ hv

theorem run_calls_vec? (S : StrBlob) (calls : List Call) :
    ∀ (D : StrBlobPtr) (h : Heap) (v : List String), h.vec? S.data = some v →
      (run_calls S calls D h).2.2.vec? S.data = some (seq_after v calls) := by
  induction calls with
  | nil => intro D h v hv; simpa [run_calls, seq_after] using hv
  | cons c rest ih =>
    intro D h v hv
    cases c with
    | push_back t =>
      simp only [run_calls, seq_after]
      exact ih D _ _ (push_back_vec? S t h v hv).2
    | pop_back =>
      simp only [run_calls, seq_after]
      exact ih D _ _ (pop_back_vec? S h v hv).1
    | incr =>
      simp only [run_calls, seq_after]
      rw [incr_heap]
      exact ih _ h v hv

theorem run_calls_count (S : StrBlob) (calls : List Call) :
    ∀ (D : StrBlobPtr) (h : Heap) (v : List String), h.vec? S.data = some v →
      (seq_after v calls).length + count_ok .pop_back calls (run_calls S calls D h).1 =
        v.length + count_push calls := by
  induction calls with
  | nil => intro D h v _; simp [run_calls, seq_after, count_ok, count_push]
  | cons c rest ih =>
    intro D h v hv
    cases c with
    | push_back t =>
      have hp := push_back_vec? S t h v hv
      have := ih D _ _ hp.2
      simp only [run_calls, seq_after, count_push, hp.1, count_ok]
      simp only [List.length_append, List.length_singleton] at this
      simp
      omega
    | pop_back =>
      have hp := pop_back_vec? S h v hv
      have := ih D _ _ hp.1
      simp only [run_calls, seq_after, count_push, hp.2]
      by_cases hne : v = []
      · subst hne
        simp only [if_true, count_ok]
        simpa using this
      · have hpos : v.length ≠ 0 := by simpa using hne
        simp only [hne, if_false, count_ok, if_true]
        simp only [List.length_dropLast] at this
        omega
    | incr =>
      have := ih (D.incr h).2.1 h v hv
      simp only [run_calls, seq_after, count_push, incr_heap]
      cases hr : (D.incr h).1 with
      | error e =>
        simp only [Except.map, count_ok]
        exact this
      | ok x =>
        simp only [Except.map, count_ok]
        simpa using this

theorem shared_ptr_copy_live (h : Heap) (p : Option Nat) (v : List String)
    (hv : h.vec? p = some v) :
    (shared_ptr_copy p h).1 = p ∧ (shared_ptr_copy p h).2.vec? p = some v ∧
      (shared_ptr_copy p h).2.use_count p = h.use_count p + 1 := by
  obtain ⟨a, c, ha, hc, h0, hcv⟩ := (vec?_some_iff h _ v).1 hv
  subst ha
  have hlt : a < h.length := (List.getElem?_eq_some.1 hc).1
  simp [shared_ptr_copy, hc, Heap.vec?, Heap.use_count, List.getElem?_set_self hlt, hcv]

theorem release_shared (h : Heap) (p : Option Nat) (v : List String)
    (hv : h.vec? p = some v) (h2 : 2 ≤ h.use_count p) :
    (release h p).vec? p = some v := by
  obtain ⟨a, c, ha, hc, h0, hcv⟩ := (vec?_some_iff h _ v).1 hv
  subst ha
  have hlt : a < h.length := (List.getElem?_eq_some.1 hc).1
  have hc2 : 2 ≤ c.use_count := by simpa [Heap.use_count, hc] using h2
  have h1 : ¬ c.use_count ≤ 1 := by omega
  have h3 : ¬ c.use_count - 1 = 0 := by omega
  simp [release, hc, h1, Heap.vec?, List.getElem?_set_self hlt, h3, hcv]

theorem run_calls_index (S : StrBlob) (calls : List Call) :
    ∀ (D : StrBlobPtr) (h : Heap) (v : List String), h.vec? S.data = some v →
      D.wptr = S.data → D.curr ≤ v.length → (∀ c ∈ calls, c ≠ Call.pop_back) →
      (run_calls S calls D h).2.1.wptr = S.data ∧
      (run_calls S calls D h).2.1.curr ≤ (seq_after v calls).length ∧
      v.length ≤ (seq_after v calls).length ∧
      ((seq_after v calls).length ≤ SIZE_MAX →
        (run_calls S calls D h).2.1.curr =
          D.curr + count_ok .incr calls (run_calls S calls D h).1) := by
  induction calls with
  | nil =>
    intro D h v _ hD hle _
    simp [run_calls, seq_after, count_ok, hD, hle]
  | cons c rest ih =>
    intro D h v hv hD hle hnp
    have hrest : ∀ d ∈ rest, d ≠ Call.pop_back := fun d hd => hnp d (List.mem_cons_of_mem _ hd)
    cases c with
    | pop_back => exact absurd rfl (hnp _ (List.mem_cons_self _ _))
    | push_back t =>
      have hp := push_back_vec? S t h v hv
      obtain ⟨i1, i2, i3, i4⟩ := ih D _ (v ++ [t]) hp.2 hD
        (by simp only [List.length_append, List.length_singleton]; omega) hrest
      simp only [List.length_append, List.length_singleton] at i3
      simp only [run_calls, seq_after, hp.1, count_ok]
      refine ⟨i1, i2, by omega, fun hsz => ?_⟩
      rw [i4 hsz]
      simp
    | incr =>
      by_cases hi : D.curr < v.length
      · have hw : h.vec? D.wptr = some v := by rw [hD]; exact hv
        have hinc := incr_of_valid D h v hw hi
        have hmod : (D.curr + 1) % 2 ^ 64 ≤ v.length :=
          Nat.le_trans (Nat.mod_le _ _) hi
        obtain ⟨i1, i2, i3, i4⟩ := ih ⟨D.wptr, (D.curr + 1) % 2 ^ 64⟩ h v hv hD hmod hrest
        simp only [run_calls, seq_after, hinc, Except.map, count_ok]
        refine ⟨i1, i2, i3, fun hsz => ?_⟩
        rw [i4 hsz]
        have : (D.curr + 1) % 2 ^ 64 = D.curr + 1 := by
          apply Nat.mod_eq_of_lt
          unfold SIZE_MAX at hsz
          omega
        simp only [this, if_true]
        omega
      · have hw : h.vec? D.wptr = some v := by rw [hD]; exact hv
        have hinc := incr_of_past D h v hw (Nat.le_of_not_lt hi)
        obtain ⟨i1, i2, i3, i4⟩ := ih D h v hv hD hle hrest
        simp only [run_calls, seq_after, hinc, Except.map, count_ok]
        exact ⟨i1, i2, i3, i4⟩

/-! The claims -/

/-- C1: for a `StrBlob` `S` with live storage holding the sequence `v` and a
cursor `C` bound to `S` at an index `i` below `S.size()`, `C.deref()` returns
the element of `v` at `i` and leaves the whole heap, hence the contents of `S`,
as it was.  The member is const: the cursor keeps its index and binding. -/
theorem deref_valid_index (h : Heap) (S : StrBlob) (C : StrBlobPtr) (v : List String)
    (i : Nat) (hS : h.vec? S.data = some v) (hC : C.wptr = S.data) (hcurr : C.curr = i)
    (hi : i < v.length) :
    S.size h = .ok v.length ∧ C.deref h = (.ok v[i], h) := by
  subst hcurr
  refine ⟨by simp [StrBlob.size, hS], ?_⟩
  rw [← hC] at hS
  exact deref_of_valid C h v hS hi

/-- The sequence a, b, c: the cursor at index 1 dereferences to b. -/
theorem deref_valid_index_witness :
    Heap.vec? [⟨["a", "b", "c"], 1⟩] (StrBlob.mk (some 0)).data = some ["a", "b", "c"] ∧
      StrBlob.size ⟨some 0⟩ [⟨["a", "b", "c"], 1⟩] = .ok 3 ∧
      StrBlobPtr.deref ⟨some 0, 1⟩ [⟨["a", "b", "c"], 1⟩] =
        (.ok "b", [⟨["a", "b", "c"], 1⟩]) :=
  ⟨rfl, deref_valid_index [⟨["a", "b", "c"], 1⟩] ⟨some 0⟩ ⟨some 0, 1⟩ ["a", "b", "c"] 1
    rfl rfl rfl (by decide)⟩

/-- C2: `deref()` throws `std::runtime_error` exactly when the storage the
cursor refers to does not exist, throws `std::out_of_range` exactly when the
storage exists and the index is at or past its size, and returns normally
exactly when the storage exists and the index is below its size.  The
liveness test comes first: without storage the index plays no role. -/
theorem deref_failure_kinds (C : StrBlobPtr) (h : Heap) :
    ((∃ m, (C.deref h).1 = .error (.runtime_error m)) ↔ h.vec? C.wptr = none) ∧
    ((∃ m, (C.deref h).1 = .error (.out_of_range m)) ↔
      ∃ v, h.vec? C.wptr = some v ∧ v.length ≤ C.curr) ∧
    ((∃ s, (C.deref h).1 = .ok s) ↔ ∃ v, h.vec? C.wptr = some v ∧ C.curr < v.length) := by
  cases hv : h.vec? C.wptr with
  | none => simp [deref_of_gone C h hv]
  | some v =>
    by_cases hi : C.curr < v.length
    · simp [deref_of_valid C h v hv hi, hi]
    · have hle : v.length ≤ C.curr := Nat.le_of_not_lt hi
      simp [deref_of_past C h v hv hle, hi, hle]

/-- C3: for a cursor bound to live storage at an index below the current
size (a `size_t` value), `incr()` returns normally, the cursor is then at the
index plus one with the same binding, the value returned is that cursor, and
the heap, hence the sequence, is as it was.  From index size minus one the
cursor reaches exactly the cursor that `end()` returns. -/
theorem incr_valid_index (h : Heap) (C : StrBlobPtr) (v : List String)
    (hv : h.vec? C.wptr = some v) (hi : C.curr < v.length) (hsz : v.length ≤ SIZE_MAX) :
    C.incr h = (.ok ⟨C.wptr, C.curr + 1⟩, ⟨C.wptr, C.curr + 1⟩, h) ∧
      (C.curr + 1 = v.length →
        ∀ S : StrBlob, S.data = C.wptr → S.end_ h = (.ok (C.incr h).2.1, h)) := by
  have hmod : (C.curr + 1) % 2 ^ 64 = C.curr + 1 := by
    apply Nat.mod_eq_of_lt
    unfold SIZE_MAX at hsz
    omega
  have hinc := incr_of_valid C h v hv hi
  rw [hmod] at hinc
  refine ⟨hinc, ?_⟩
  intro hlast S hS
  rw [hinc]
  simp [StrBlob.end_, hS, hv, StrBlobPtr.mk_at, hlast]

/-- The sequence a, b, c: the cursor at index 2 advances to index 3. -/
theorem incr_valid_index_witness :
    Heap.vec? [⟨["a", "b", "c"], 1⟩] (StrBlobPtr.mk (some 0) 2).wptr = some ["a", "b", "c"] ∧
      StrBlobPtr.incr ⟨some 0, 2⟩ [⟨["a", "b", "c"], 1⟩] =
        (.ok ⟨some 0, 3⟩, ⟨some 0, 3⟩, [⟨["a", "b", "c"], 1⟩]) :=
  ⟨rfl, (incr_valid_index [⟨["a", "b", "c"], 1⟩] ⟨some 0, 2⟩ ["a", "b", "c"]
    rfl (by decide) (by decide)).1⟩

/-- C4: for a `StrBlob` `S` with live storage and a cursor bound to `S` whose
index equals `S.size()`, `incr()` throws `std::out_of_range` and leaves the
cursor and the heap as they were.  The cursor `S.end()` is such a cursor, and
so is `S.begin()` when `S` is empty. -/
theorem incr_at_end (h : Heap) (S : StrBlob) (C : StrBlobPtr) (v : List String)
    (hS : h.vec? S.data = some v) (hC : C.wptr = S.data) (hcurr : C.curr = v.length) :
    S.size h = .ok v.length ∧
    C.incr h = (.error (.out_of_range "increment past end of StrBlobPtr"), C, h) ∧
    (∃ e, S.end_ h = (.ok e, h) ∧
      e.incr h = (.error (.out_of_range "increment past end of StrBlobPtr"), e, h)) ∧
    (v = [] → ∃ b, S.begin h = (.ok b, h) ∧
      b.incr h = (.error (.out_of_range "increment past end of StrBlobPtr"), b, h)) := by
  refine ⟨by simp [StrBlob.size, hS], ?_, ?_, ?_⟩
  · rw [← hC] at hS
    exact incr_of_past C h v hS (Nat.le_of_eq hcurr.symm)
  · refine ⟨StrBlobPtr.mk_at S v.length, by simp [StrBlob.end_, hS], ?_⟩
    exact incr_of_past _ h v hS (Nat.le_refl _)
  · intro hnil
    refine ⟨StrBlobPtr.mk_at S 0, rfl, ?_⟩
    exact incr_of_past _ h v hS (by simp [hnil, StrBlobPtr.mk_at])

/-- The sequence a, b: the cursor at index 2 cannot advance. -/
theorem incr_at_end_witness :
    Heap.vec? [⟨["a", "b"], 1⟩] (StrBlob.mk (some 0)).data = some ["a", "b"] ∧
      StrBlobPtr.incr ⟨some 0, 2⟩ [⟨["a", "b"], 1⟩] =
        (.error (.out_of_range "increment past end of StrBlobPtr"), ⟨some 0, 2⟩,
          [⟨["a", "b"], 1⟩]) :=
  ⟨rfl, (incr_at_end [⟨["a", "b"], 1⟩] ⟨some 0⟩ ⟨some 0, 2⟩ ["a", "b"] rfl rfl rfl).2.1⟩

/-- C5: a cursor does not own its target.  For a `StrBlob` `S` with live
storage and a cursor `C` made from it by the two argument constructor at any
index, by `begin()` or by `end()`, once as many handles to the storage have
been destroyed as own it, `C.deref()` and `C.incr()` both throw
`std::runtime_error`, whatever the index, and change nothing. -/
theorem cursor_does_not_own (h : Heap) (S : StrBlob) (v : List String)
    (handles : List StrBlob) (sz : Nat) (C : StrBlobPtr)
    (hS : h.vec? S.data = some v)
    (hall : ∀ T ∈ handles, T.data = S.data)
    (hcount : handles.length = h.use_count S.data)
    (hC : C = StrBlobPtr.mk_at S sz ∨ S.begin h = (.ok C, h) ∨ S.end_ h = (.ok C, h)) :
    C.deref (destroy_all handles h) =
        (.error (.runtime_error "unbound StrBlobPtr"), destroy_all handles h) ∧
      C.incr (destroy_all handles h) =
        (.error (.runtime_error "unbound StrBlobPtr"), C, destroy_all handles h) := by
  have hw : C.wptr = S.data := by
    rcases hC with hC | hC | hC
    · rw [hC]; rfl
    · simp only [StrBlob.begin, Prod.mk.injEq, Except.ok.injEq, and_true] at hC
      rw [← hC]; rfl
    · simp only [StrBlob.end_, hS, Prod.mk.injEq, Except.ok.injEq, and_true] at hC
      rw [← hC]; rfl
  have hgone : (destroy_all handles h).vec? C.wptr = none := by
    apply vec?_none_of_use_count
    rw [hw, use_count_destroy_all handles S.data h hall, hcount]
    omega
  exact ⟨deref_of_gone C _ hgone, incr_of_gone C _ hgone⟩

/-- Storage owned by two handles: once both are destroyed the cursor is unbound. -/
theorem cursor_does_not_own_witness :
    Heap.vec? [⟨["a", "b"], 2⟩] (StrBlob.mk (some 0)).data = some ["a", "b"] ∧
      destroy_all [⟨some 0⟩, ⟨some 0⟩] [⟨["a", "b"], 2⟩] = [⟨[], 0⟩] ∧
      StrBlobPtr.deref ⟨some 0, 1⟩ (destroy_all [⟨some 0⟩, ⟨some 0⟩] [⟨["a", "b"], 2⟩]) =
        (.error (.runtime_error "unbound StrBlobPtr"),
          destroy_all [⟨some 0⟩, ⟨some 0⟩] [⟨["a", "b"], 2⟩]) :=
  ⟨rfl, rfl, (cursor_does_not_own [⟨["a", "b"], 2⟩] ⟨some 0⟩ ["a", "b"]
    [⟨some 0⟩, ⟨some 0⟩] 1 ⟨some 0, 1⟩ rfl (by simp) rfl (Or.inl rfl)).1⟩

/-- C6: traversal round trip.  Pushing the lines `v1 .. vn` (with `n` a
`size_t` value) in order onto a default constructed `StrBlob` and running the
loop of `main` from `begin()` to `end()` throws nothing, writes exactly
`v1 .. vn` in order, and stops after exactly `n` calls of `incr`, with the
cursor equal to `end()`, so that `pbeg != pend` is false; any fuel above `n`
is enough.  The function `main` as a whole writes `v1 .. vn`. -/
theorem traversal_round_trip (h0 : Heap) (lines : List String) (fuel : Nat)
    (hsz : lines.length ≤ SIZE_MAX) (hfuel : lines.length < fuel) :
    ∃ (S : StrBlob) (h1 h2 : Heap) (pbeg pend : StrBlobPtr),
      StrBlob.mk_default h0 = (S, h1) ∧
      read_loop S lines h1 = (.ok (), h2) ∧
      S.begin h2 = (.ok pbeg, h2) ∧
      S.end_ h2 = (.ok pend, h2) ∧
      print_loop fuel pbeg pend h2 [] 0 = some ⟨.ok (), pend, h2, lines, lines.length⟩ ∧
      pend.operator_ne pend = false ∧
      main lines h0 fuel = some (.ok (), lines, S.destroy h2) := by
  have hr := read_loop_vec? (StrBlob.mk_default h0).1 lines (StrBlob.mk_default h0).2 []
    (mk_default_vec? h0)
  simp only [List.nil_append] at hr
  obtain ⟨hr1, hr2⟩ := hr
  have hloop := print_loop_run (StrBlob.mk_default h0).1.data
    (read_loop (StrBlob.mk_default h0).1 lines (StrBlob.mk_default h0).2).2 lines hr2 hsz
    (StrBlobPtr.mk_at (StrBlob.mk_default h0).1 lines.length) rfl lines.length 0 [] 0 fuel
    (by omega) hfuel
  simp only [List.drop_zero, List.nil_append, Nat.zero_add] at hloop
  refine ⟨(StrBlob.mk_default h0).1, (StrBlob.mk_default h0).2,
    (read_loop (StrBlob.mk_default h0).1 lines (StrBlob.mk_default h0).2).2,
    StrBlobPtr.mk_at (StrBlob.mk_default h0).1 0,
    StrBlobPtr.mk_at (StrBlob.mk_default h0).1 lines.length, rfl, ?_, rfl, ?_, hloop, ?_, ?_⟩
  · exact Prod.ext hr1 rfl
  · simp [StrBlob.end_, hr2]
  · simp [StrBlobPtr.operator_ne]
  · have hrl : read_loop (StrBlob.mk_default h0).1 lines (StrBlob.mk_default h0).2 =
        (.ok (), (read_loop (StrBlob.mk_default h0).1 lines (StrBlob.mk_default h0).2).2) :=
      Prod.ext hr1 rfl
    have hloop2 : print_loop fuel (StrBlobPtr.mk_at (StrBlob.mk_default h0).1 0)
        (StrBlobPtr.mk_at (StrBlob.mk_default h0).1 lines.length)
        (read_loop (StrBlob.mk_default h0).1 lines (StrBlob.mk_default h0).2).2 [] 0 = _ := hloop
    unfold main
    simp only []
    rw [hrl]
    simp only [StrBlob.begin, StrBlob.end_, hr2, hloop2]

/-- The lines a, b, c are written back in order after three increments. -/
theorem traversal_round_trip_witness :
    [("a" : String), "b", "c"].length ≤ SIZE_MAX ∧
      main ["a", "b", "c"] [] 4 = some (.ok (), ["a", "b", "c"], [⟨[], 0⟩]) ∧
      ∃ (S : StrBlob) (h1 h2 : Heap) (pbeg pend : StrBlobPtr),
        StrBlob.mk_default [] = (S, h1) ∧
        read_loop S ["a", "b", "c"] h1 = (.ok (), h2) ∧
        S.begin h2 = (.ok pbeg, h2) ∧
        S.end_ h2 = (.ok pend, h2) ∧
        print_loop 4 pbeg pend h2 [] 0 = some ⟨.ok (), pend, h2, ["a", "b", "c"], 3⟩ ∧
        pend.operator_ne pend = false ∧
        main ["a", "b", "c"] [] 4 = some (.ok (), ["a", "b", "c"], S.destroy h2) :=
  ⟨by decide, by decide,
    traversal_round_trip [] ["a", "b", "c"] 4 (by decide) (by decide)⟩

/-- C7: for a `StrBlob` `S` that owns live storage, `pop_back()` throws
`std::out_of_range` exactly when `S` is empty; on a non-empty `S` it returns
normally and the sequence afterwards is the sequence before without its last
element: the size is one less and the sequence before is the sequence after
followed by one element. -/
theorem pop_back_contract (h : Heap) (S : StrBlob) (v : List String)
    (hS : h.vec? S.data = some v) :
    ((∃ m, (S.pop_back h).1 = .error (.out_of_range m)) ↔ S.empty h = .ok true) ∧
    (S.empty h = .ok false →
      (S.pop_back h).1 = .ok () ∧
      ∃ w x, (S.pop_back h).2.vec? S.data = some w ∧ v = w ++ [x] ∧
        S.size h = .ok (w.length + 1) ∧ S.size (S.pop_back h).2 = .ok w.length) := by
  obtain ⟨a, c, ha, -⟩ := (vec?_some_iff h _ v).1 hS
  have hempty : S.empty h = .ok v.isEmpty := by simp [StrBlob.empty, hS]
  by_cases hne : v = []
  · subst hne
    simp [pop_back_nil S h hS, hempty]
  · have hpop := pop_back_ne_nil S h a v ha hS hne
    have hvec : (h.store a v.dropLast).vec? S.data = some v.dropLast := by
      rw [ha] at hS ⊢
      exact vec?_store h a v _ hS
    have hfalse : v.isEmpty = false := by simpa using hne
    refine ⟨by simp [hpop, hempty, hfalse], fun _ => ⟨by rw [hpop], ?_⟩⟩
    refine ⟨v.dropLast, v.getLast hne, ?_, (List.dropLast_concat_getLast hne).symm, ?_, ?_⟩
    · rw [hpop]; exact hvec
    · have : v.length ≠ 0 := by simpa using hne
      simp only [StrBlob.size, hS, List.length_dropLast]
      congr 1
      omega
    · rw [hpop]
      simp [StrBlob.size, hvec]

/-- Popping from the sequence a, b leaves the sequence a. -/
theorem pop_back_contract_witness :
    Heap.vec? [⟨["a", "b"], 1⟩] (StrBlob.mk (some 0)).data = some ["a", "b"] ∧
      StrBlob.pop_back ⟨some 0⟩ [⟨["a", "b"], 1⟩] = (.ok (), [⟨["a"], 1⟩]) ∧
      (StrBlob.empty ⟨some 0⟩ [⟨["a", "b"], 1⟩] = .ok false →
        (StrBlob.pop_back ⟨some 0⟩ [⟨["a", "b"], 1⟩]).1 = .ok () ∧
        ∃ w x, (StrBlob.pop_back ⟨some 0⟩ [⟨["a", "b"], 1⟩]).2.vec? (StrBlob.mk (some 0)).data
            = some w ∧ ["a", "b"] = w ++ [x] ∧
          StrBlob.size ⟨some 0⟩ [⟨["a", "b"], 1⟩] = .ok (w.length + 1) ∧
          StrBlob.size ⟨some 0⟩ (StrBlob.pop_back ⟨some 0⟩ [⟨["a", "b"], 1⟩]).2
            = .ok w.length) :=
  ⟨rfl, rfl, (pop_back_contract [⟨["a", "b"], 1⟩] ⟨some 0⟩ ["a", "b"] rfl).2⟩

/-- C8: for a `StrBlob` `S` that owns live storage, `push_back(t)` returns
normally; afterwards `size()` is the size before plus one, `back()` returns
`t`, and the sequence is the sequence before followed by `t`, so that every
element before is still at its index. -/
theorem push_back_contract (h : Heap) (S : StrBlob) (v : List String) (t : String)
    (hS : h.vec? S.data = some v) :
    (S.push_back t h).1 = .ok () ∧
    S.size h = .ok v.length ∧
    S.size (S.push_back t h).2 = .ok (v.length + 1) ∧
    S.back (S.push_back t h).2 = (.ok t, (S.push_back t h).2) ∧
    (S.push_back t h).2.vec? S.data = some (v ++ [t]) ∧
    (∀ (i : Nat) (x : String), v[i]? = some x → (v ++ [t])[i]? = some x) := by
  obtain ⟨hok, hvec⟩ := push_back_vec? S t h v hS
  refine ⟨hok, by simp [StrBlob.size, hS], by simp [StrBlob.size, hvec], ?_, hvec, ?_⟩
  · rw [back_eq S _ (v ++ [t]) hvec]
    simp
  · intro i x hx
    have hi : i < v.length := (List.getElem?_eq_some.1 hx).1
    rw [List.getElem?_append_left hi, hx]

/-- Pushing c onto the sequence a, b gives a, b, c, whose last element is c. -/
theorem push_back_contract_witness :
    Heap.vec? [⟨["a", "b"], 1⟩] (StrBlob.mk (some 0)).data = some ["a", "b"] ∧
      StrBlob.push_back ⟨some 0⟩ "c" [⟨["a", "b"], 1⟩] = (.ok (), [⟨["a", "b", "c"], 1⟩]) ∧
      StrBlob.back ⟨some 0⟩ (StrBlob.push_back ⟨some 0⟩ "c" [⟨["a", "b"], 1⟩]).2 =
        (.ok "c", (StrBlob.push_back ⟨some 0⟩ "c" [⟨["a", "b"], 1⟩]).2) :=
  ⟨rfl, rfl, (push_back_contract [⟨["a", "b"], 1⟩] ⟨some 0⟩ ["a", "b"] "c" rfl).2.2.2.1⟩

/-- C9: for a `StrBlob` `S` that owns live storage, each of `front()`,
`back()` and their const overloads throws `std::out_of_range` exactly when
`S` is empty; on a non-empty `S`, `front()` returns the element at index 0
and `back()` the element at index `size() - 1`, and the heap, hence the
sequence, is as it was. -/
theorem front_back_contract (h : Heap) (S : StrBlob) (v : List String)
    (hS : h.vec? S.data = some v) :
    ((∃ m, (S.front h).1 = .error (.out_of_range m)) ↔ S.empty h = .ok true) ∧
    ((∃ m, (S.back h).1 = .error (.out_of_range m)) ↔ S.empty h = .ok true) ∧
    ((∃ m, (S.front_const h).1 = .error (.out_of_range m)) ↔ S.empty h = .ok true) ∧
    ((∃ m, (S.back_const h).1 = .error (.out_of_range m)) ↔ S.empty h = .ok true) ∧
    (S.empty h = .ok false →
      ∃ x y, v[0]? = some x ∧ v[v.length - 1]? = some y ∧ S.size h = .ok v.length ∧
        S.front h = (.ok x, h) ∧ S.back h = (.ok y, h) ∧
        S.front_const h = (.ok x, h) ∧ S.back_const h = (.ok y, h)) := by
  have hempty : S.empty h = .ok v.isEmpty := by simp [StrBlob.empty, hS]
  have hsize : S.size h = .ok v.length := by simp [StrBlob.size, hS]
  rw [front_const_eq, back_const_eq, front_eq S h v hS, back_eq S h v hS]
  cases v with
  | nil => simp [hempty]
  | cons x xs =>
    have hlast : ∃ y, (x :: xs)[(x :: xs).length - 1]? = some y :=
      ⟨(x :: xs)[(x :: xs).length - 1], List.getElem?_eq_getElem (by simp)⟩
    obtain ⟨y, hy⟩ := hlast
    rw [hy]
    simp [hempty, hsize]

/-- On the sequence a, b the first element is a and the last is b. -/
theorem front_back_contract_witness :
    Heap.vec? [⟨["a", "b"], 1⟩] (StrBlob.mk (some 0)).data = some ["a", "b"] ∧
      StrBlob.front ⟨some 0⟩ [⟨["a", "b"], 1⟩] = (.ok "a", [⟨["a", "b"], 1⟩]) ∧
      StrBlob.back ⟨some 0⟩ [⟨["a", "b"], 1⟩] = (.ok "b", [⟨["a", "b"], 1⟩]) ∧
      ((∃ m, (StrBlob.front ⟨some 0⟩ [⟨["a", "b"], 1⟩]).1 = .error (.out_of_range m)) ↔
        StrBlob.empty ⟨some 0⟩ [⟨["a", "b"], 1⟩] = .ok true) :=
  ⟨rfl, rfl, rfl, (front_back_contract [⟨["a", "b"], 1⟩] ⟨some 0⟩ ["a", "b"] rfl).1⟩

/-- C10: for a `StrBlob` `S` that owns live storage, `begin()` returns a
cursor bound to the storage of `S` at index 0 and `end()` one bound to it at
index `size()`; both leave the heap, hence the contents and the size of `S`,
as it was.  `begin() != end()` is false when `S` is empty and true when it is
not. -/
theorem begin_end_contract (h : Heap) (S : StrBlob) (v : List String)
    (hS : h.vec? S.data = some v) :
    ∃ b e, S.begin h = (.ok b, h) ∧ S.end_ h = (.ok e, h) ∧
      b.wptr = S.data ∧ b.curr = 0 ∧
      e.wptr = S.data ∧ S.size h = .ok e.curr ∧
      (S.empty h = .ok true → b.operator_ne e = false) ∧
      (S.empty h = .ok false → b.operator_ne e = true) := by
  refine ⟨StrBlobPtr.mk_at S 0, StrBlobPtr.mk_at S v.length, rfl, by simp [StrBlob.end_, hS],
    rfl, rfl, rfl, by simp [StrBlob.size, hS, StrBlobPtr.mk_at], ?_, ?_⟩
  · intro he
    have : v = [] := by simpa [StrBlob.empty, hS] using he
    simp [StrBlobPtr.operator_ne, StrBlobPtr.mk_at, this]
  · intro he
    have : ¬ v = [] := by simpa [StrBlob.empty, hS] using he
    simpa [StrBlobPtr.operator_ne, StrBlobPtr.mk_at] using this

/-- On the sequence a, b the cursors are at index 0 and at index 2. -/
theorem begin_end_contract_witness :
    Heap.vec? [⟨["a", "b"], 1⟩] (StrBlob.mk (some 0)).data = some ["a", "b"] ∧
      StrBlob.begin ⟨some 0⟩ [⟨["a", "b"], 1⟩] = (.ok ⟨some 0, 0⟩, [⟨["a", "b"], 1⟩]) ∧
      StrBlob.end_ ⟨some 0⟩ [⟨["a", "b"], 1⟩] = (.ok ⟨some 0, 2⟩, [⟨["a", "b"], 1⟩]) ∧
      ∃ b e, StrBlob.begin ⟨some 0⟩ [⟨["a", "b"], 1⟩] = (.ok b, [⟨["a", "b"], 1⟩]) ∧
        StrBlob.end_ ⟨some 0⟩ [⟨["a", "b"], 1⟩] = (.ok e, [⟨["a", "b"], 1⟩]) ∧
        b.wptr = (StrBlob.mk (some 0)).data ∧ b.curr = 0 ∧
        e.wptr = (StrBlob.mk (some 0)).data ∧
        StrBlob.size ⟨some 0⟩ [⟨["a", "b"], 1⟩] = .ok e.curr ∧
        (StrBlob.empty ⟨some 0⟩ [⟨["a", "b"], 1⟩] = .ok true → b.operator_ne e = false) ∧
        (StrBlob.empty ⟨some 0⟩ [⟨["a", "b"], 1⟩] = .ok false → b.operator_ne e = true) :=
  ⟨rfl, rfl, rfl, begin_end_contract [⟨["a", "b"], 1⟩] ⟨some 0⟩ ["a", "b"] rfl⟩

/-- C11: a default constructed cursor has index 0 and is bound to nothing; on
every heap, whatever it holds, `deref()` and `incr()` on it throw
`std::runtime_error`, hence never `std::out_of_range`, and change nothing. -/
theorem default_cursor_unbound (h : Heap) :
    StrBlobPtr.mk_default.curr = 0 ∧ StrBlobPtr.mk_default.wptr = none ∧
    StrBlobPtr.mk_default.deref h = (.error (.runtime_error "unbound StrBlobPtr"), h) ∧
    StrBlobPtr.mk_default.incr h =
      (.error (.runtime_error "unbound StrBlobPtr"), StrBlobPtr.mk_default, h) ∧
    (∀ m, (StrBlobPtr.mk_default.deref h).1 ≠ .error (.out_of_range m)) ∧
    (∀ m, (StrBlobPtr.mk_default.incr h).1 ≠ .error (.out_of_range m)) := by
  have hgone : h.vec? StrBlobPtr.mk_default.wptr = none := rfl
  have hd := deref_of_gone StrBlobPtr.mk_default h hgone
  have hi := incr_of_gone StrBlobPtr.mk_default h hgone
  refine ⟨rfl, rfl, hd, hi, ?_, ?_⟩
  · intro m; rw [hd]; simp
  · intro m; rw [hi]; simp

/-- On a heap that holds a live blob the default constructed cursor is still
unbound. -/
theorem default_cursor_unbound_witness :
    StrBlobPtr.deref StrBlobPtr.mk_default [⟨["a"], 1⟩] =
        (.error (.runtime_error "unbound StrBlobPtr"), [⟨["a"], 1⟩]) ∧
      StrBlobPtr.incr StrBlobPtr.mk_default [⟨["a"], 1⟩] =
        (.error (.runtime_error "unbound StrBlobPtr"), StrBlobPtr.mk_default, [⟨["a"], 1⟩]) :=
  ⟨(default_cursor_unbound [⟨["a"], 1⟩]).2.2.1, (default_cursor_unbound [⟨["a"], 1⟩]).2.2.2.1⟩

/-- C12: `a != b` is true exactly when the indices of the two cursors differ.
The operator reads neither binding nor heap: two cursors over any two blobs at
the same index, and a default constructed cursor against `begin()` of any
blob, give false. -/
theorem operator_ne_compares_index (a b : StrBlobPtr) :
    (a.operator_ne b = true ↔ a.curr ≠ b.curr) ∧
    (∀ w1 w2 : weak_ptr,
      StrBlobPtr.operator_ne ⟨w1, a.curr⟩ ⟨w2, b.curr⟩ = a.operator_ne b) ∧
    (∀ (S T : StrBlob) (i : Nat),
      (StrBlobPtr.mk_at S i).operator_ne (StrBlobPtr.mk_at T i) = false) ∧
    (∀ (S : StrBlob) (h : Heap) (p : StrBlobPtr), S.begin h = (.ok p, h) →
      StrBlobPtr.mk_default.operator_ne p = false ∧
        p.operator_ne StrBlobPtr.mk_default = false) := by
  refine ⟨?_, fun _ _ => rfl, ?_, ?_⟩
  · simp only [StrBlobPtr.operator_ne, bne_iff_ne, ne_eq]
    exact ⟨fun hne heq => hne heq.symm, fun hne heq => hne heq.symm⟩
  · intro S T i
    simp [StrBlobPtr.operator_ne, StrBlobPtr.mk_at]
  · intro S h p hp
    simp only [StrBlob.begin, Prod.mk.injEq, Except.ok.injEq, and_true] at hp
    subst hp
    simp [StrBlobPtr.operator_ne, StrBlobPtr.mk_at, StrBlobPtr.mk_default]

/-- Cursors over two different blobs at index 1 are not unequal; the default
constructed cursor is not unequal to `begin()`. -/
theorem operator_ne_compares_index_witness :
    StrBlobPtr.operator_ne ⟨some 0, 1⟩ ⟨some 7, 1⟩ = false ∧
      StrBlob.begin ⟨some 0⟩ [⟨["a"], 1⟩] = (.ok ⟨some 0, 0⟩, [⟨["a"], 1⟩]) ∧
      StrBlobPtr.operator_ne StrBlobPtr.mk_default ⟨some 0, 0⟩ = false :=
  ⟨(operator_ne_compares_index ⟨some 0, 1⟩ ⟨some 7, 1⟩).2.2.1 ⟨some 0⟩ ⟨some 7⟩ 1, rfl,
    ((operator_ne_compares_index ⟨some 0, 1⟩ ⟨some 7, 1⟩).2.2.2 ⟨some 0⟩ [⟨["a"], 1⟩]
      ⟨some 0, 0⟩ rfl).1⟩

/-- C13: `size()` is the number of live elements.  For a `StrBlob` made empty
or from an initial list of `k` strings, after any finite list of calls
(`push_back`, `pop_back` that may fail, and `incr` on a cursor), `size()`
returns normally a number `n` with `n` plus the number of `pop_back` calls
that returned normally equal to `k` plus the number of `push_back` calls;
`empty()` returns whether `n` is 0; and, with `n` a `size_t` value and fuel
above `n`, the traversal from `begin()` to `end()` writes `n` strings: the
elements themselves. -/
theorem size_is_element_count (h0 : Heap) (il : List String) (S : StrBlob) (h1 : Heap)
    (calls : List Call) (D : StrBlobPtr) (fuel : Nat)
    (hmk : StrBlob.mk_il il h0 = (S, h1) ∨ (il = [] ∧ StrBlob.mk_default h0 = (S, h1))) :
    ∃ (n : Nat) (v : List String),
      S.size (run_calls S calls D h1).2.2 = .ok n ∧
      n + count_ok .pop_back calls (run_calls S calls D h1).1 = il.length + count_push calls ∧
      S.empty (run_calls S calls D h1).2.2 = .ok (decide (n = 0)) ∧
      (run_calls S calls D h1).2.2.vec? S.data = some v ∧ v.length = n ∧
      (n ≤ SIZE_MAX → n < fuel →
        ∃ b e, S.begin (run_calls S calls D h1).2.2 = (.ok b, (run_calls S calls D h1).2.2) ∧
          S.end_ (run_calls S calls D h1).2.2 = (.ok e, (run_calls S calls D h1).2.2) ∧
          print_loop fuel b e (run_calls S calls D h1).2.2 [] 0 =
            some ⟨.ok (), e, (run_calls S calls D h1).2.2, v, n⟩) := by
  have hlive : h1.vec? S.data = some il := by
    rcases hmk with hmk | ⟨hnil, hmk⟩
    · have := mk_il_vec? il h0
      rw [hmk] at this
      exact this
    · have := mk_default_vec? h0
      rw [hmk] at this
      rw [hnil]
      exact this
  have hvec := run_calls_vec? S calls D h1 il hlive
  have hcount := run_calls_count S calls D h1 il hlive
  refine ⟨(seq_after il calls).length, seq_after il calls, by simp [StrBlob.size, hvec],
    hcount, ?_, hvec, rfl, ?_⟩
  · simp only [StrBlob.empty, hvec]
    cases seq_after il calls <;> simp
  · intro hsz hfuel
    refine ⟨StrBlobPtr.mk_at S 0, StrBlobPtr.mk_at S (seq_after il calls).length, rfl,
      by simp [StrBlob.end_, hvec], ?_⟩
    have := print_loop_run S.data _ (seq_after il calls) hvec hsz
      (StrBlobPtr.mk_at S (seq_after il calls).length) rfl (seq_after il calls).length 0 [] 0
      fuel (by omega) hfuel
    simpa using this

/-- The blob a, b after a push, three pops that return, a fourth pop that
throws and a second push: one element, two initial ones plus two pushes minus
three pops. -/
theorem size_is_element_count_witness :
    StrBlob.mk_il ["a", "b"] [] = (⟨some 0⟩, [⟨["a", "b"], 1⟩]) ∧
      (run_calls ⟨some 0⟩ [.push_back "c", .pop_back, .pop_back, .pop_back, .pop_back,
        .push_back "z"] StrBlobPtr.mk_default [⟨["a", "b"], 1⟩]).2.2 = [⟨["z"], 1⟩] ∧
      ∃ (n : Nat) (v : List String),
        StrBlob.size ⟨some 0⟩ (run_calls ⟨some 0⟩ [.push_back "c", .pop_back, .pop_back,
          .pop_back, .pop_back, .push_back "z"] StrBlobPtr.mk_default
          [⟨["a", "b"], 1⟩]).2.2 = .ok n ∧
        n + count_ok .pop_back [.push_back "c", .pop_back, .pop_back, .pop_back, .pop_back,
            .push_back "z"]
          (run_calls ⟨some 0⟩ [.push_back "c", .pop_back, .pop_back, .pop_back, .pop_back,
            .push_back "z"] StrBlobPtr.mk_default [⟨["a", "b"], 1⟩]).1 =
          ["a", "b"].length + count_push [.push_back "c", .pop_back, .pop_back, .pop_back,
            .pop_back, .push_back "z"] ∧
        StrBlob.empty ⟨some 0⟩ (run_calls ⟨some 0⟩ [.push_back "c", .pop_back, .pop_back,
          .pop_back, .pop_back, .push_back "z"] StrBlobPtr.mk_default
          [⟨["a", "b"], 1⟩]).2.2 = .ok (decide (n = 0)) ∧
        (run_calls ⟨some 0⟩ [.push_back "c", .pop_back, .pop_back, .pop_back, .pop_back,
          .push_back "z"] StrBlobPtr.mk_default [⟨["a", "b"], 1⟩]).2.2.vec?
            (StrBlob.mk (some 0)).data = some v ∧ v.length = n :=
  ⟨rfl, by decide,
    (size_is_element_count [] ["a", "b"] ⟨some 0⟩ [⟨["a", "b"], 1⟩]
      [.push_back "c", .pop_back, .pop_back, .pop_back, .pop_back, .push_back "z"]
      StrBlobPtr.mk_default 2 (Or.inl rfl)).imp
      (fun _ hn => hn.imp (fun _ hv => ⟨hv.1, hv.2.1, hv.2.2.1, hv.2.2.2.1, hv.2.2.2.2.1⟩))⟩

/-- C14: for a non-empty list of lines `v1 .. vn` (with `n` a `size_t`
value), pushing them onto a default constructed `StrBlob`, calling
`pop_back()` once, and traversing from `begin()` to `end()`, both taken after
the pop, writes exactly `v1 .. v(n-1)`: the lines are what was written
followed by the one line left out. -/
theorem traversal_after_pop (h0 : Heap) (lines : List String) (fuel : Nat)
    (hne : lines ≠ []) (hsz : lines.length ≤ SIZE_MAX) (hfuel : lines.length ≤ fuel) :
    ∃ (S : StrBlob) (h1 h2 h3 : Heap) (pbeg pend : StrBlobPtr) (out : List String)
      (x : String),
      StrBlob.mk_default h0 = (S, h1) ∧
      read_loop S lines h1 = (.ok (), h2) ∧
      S.pop_back h2 = (.ok (), h3) ∧
      S.begin h3 = (.ok pbeg, h3) ∧
      S.end_ h3 = (.ok pend, h3) ∧
      print_loop fuel pbeg pend h3 [] 0 = some ⟨.ok (), pend, h3, out, lines.length - 1⟩ ∧
      lines = out ++ [x] := by
  have hr := read_loop_vec? (StrBlob.mk_default h0).1 lines (StrBlob.mk_default h0).2 []
    (mk_default_vec? h0)
  simp only [List.nil_append] at hr
  obtain ⟨hr1, hr2⟩ := hr
  have hp := pop_back_vec? (StrBlob.mk_default h0).1 _ lines hr2
  simp only [hne, if_false] at hp
  obtain ⟨hp1, hp2⟩ := hp
  have hlen : lines.dropLast.length = lines.length - 1 := List.length_dropLast lines
  have hpos : lines.length ≠ 0 := by simpa using hne
  have hloop := print_loop_run (StrBlob.mk_default h0).1.data _ lines.dropLast hp1
    (by omega) (StrBlobPtr.mk_at (StrBlob.mk_default h0).1 lines.dropLast.length) rfl
    lines.dropLast.length 0 [] 0 fuel (by omega) (by omega)
  simp only [List.drop_zero, List.nil_append, Nat.zero_add] at hloop
  rw [hlen] at hloop
  refine ⟨(StrBlob.mk_default h0).1, (StrBlob.mk_default h0).2, _, _,
    StrBlobPtr.mk_at (StrBlob.mk_default h0).1 0,
    StrBlobPtr.mk_at (StrBlob.mk_default h0).1 (lines.length - 1), lines.dropLast,
    lines.getLast hne, rfl, Prod.ext hr1 rfl, Prod.ext hp2 rfl, rfl, ?_, hloop,
    (List.dropLast_concat_getLast hne).symm⟩
  simp [StrBlob.end_, hp1, hlen]

/-- The lines a, b, c: after one pop the traversal writes a, b. -/
theorem traversal_after_pop_witness :
    [("a" : String), "b", "c"] ≠ [] ∧
      ∃ (S : StrBlob) (h1 h2 h3 : Heap) (pbeg pend : StrBlobPtr) (out : List String)
        (x : String),
        StrBlob.mk_default [] = (S, h1) ∧
        read_loop S ["a", "b", "c"] h1 = (.ok (), h2) ∧
        S.pop_back h2 = (.ok (), h3) ∧
        S.begin h3 = (.ok pbeg, h3) ∧
        S.end_ h3 = (.ok pend, h3) ∧
        print_loop 3 pbeg pend h3 [] 0 =
          some ⟨.ok (), pend, h3, out, [("a" : String), "b", "c"].length - 1⟩ ∧
        ["a", "b", "c"] = out ++ [x] :=
  ⟨by decide, traversal_after_pop [] ["a", "b", "c"] 3 (by decide) (by decide) (by decide)⟩

/-- C15: the storage is owned jointly.  For a `StrBlob` `S` with live storage
and a copy `T` of it: the copy refers to the same storage, which has one more
owner; after any calls made through one handle the other handle sees the
resulting sequence, and on every heap `size()`, `front()`, `back()`, `begin()`
and `end()` agree on both; destroying either handle leaves the storage alive
with its contents, so that a bound cursor still dereferences; and when the
two are the only owners, destroying both ends the storage. -/
theorem shared_ownership (h : Heap) (S T : StrBlob) (h1 : Heap) (v : List String)
    (hS : h.vec? S.data = some v) (hcopy : S.copy h = (T, h1)) :
    T.data = S.data ∧ h1.vec? T.data = some v ∧
    h1.use_count S.data = h.use_count S.data + 1 ∧
    (∀ (calls : List Call) (D : StrBlobPtr),
      (run_calls S calls D h1).2.2.vec? T.data = some (seq_after v calls) ∧
      (run_calls T calls D h1).2.2.vec? S.data = some (seq_after v calls)) ∧
    (∀ h2 : Heap, T.size h2 = S.size h2 ∧ T.front h2 = S.front h2 ∧ T.back h2 = S.back h2 ∧
      T.begin h2 = S.begin h2 ∧ T.end_ h2 = S.end_ h2) ∧
    (S.destroy h1).vec? T.data = some v ∧ (T.destroy h1).vec? S.data = some v ∧
    (∀ (C : StrBlobPtr) (s : String), C.wptr = S.data → v[C.curr]? = some s →
      C.deref (S.destroy h1) = (.ok s, S.destroy h1) ∧
      C.deref (T.destroy h1) = (.ok s, T.destroy h1)) ∧
    (h.use_count S.data = 1 → (T.destroy (S.destroy h1)).vec? S.data = none) := by
  obtain ⟨c1, c2, c3⟩ := shared_ptr_copy_live h S.data v hS
  have hT : T = S := by
    have : T = (S.copy h).1 := by rw [hcopy]
    rw [this]
    cases S
    simp only [StrBlob.copy] at c1 ⊢
    rw [c1]
  have hh : h1 = (shared_ptr_copy S.data h).2 := by
    have : h1 = (S.copy h).2 := by rw [hcopy]
    rw [this]; rfl
  subst hT
  rw [← hh] at c2 c3
  have huc : 2 ≤ h1.use_count T.data := by
    have : h.use_count T.data ≠ 0 := by
      intro h0
      rw [vec?_none_of_use_count h _ h0] at hS
      cases hS
    omega
  have halive := release_shared h1 T.data v c2 huc
  refine ⟨rfl, c2, c3, fun calls D => ⟨run_calls_vec? T calls D h1 v c2,
    run_calls_vec? T calls D h1 v c2⟩, fun h2 => ⟨rfl, rfl, rfl, rfl, rfl⟩, halive, halive,
    ?_, ?_⟩
  · intro C s hC hs
    have hi : C.curr < v.length := (List.getElem?_eq_some.1 hs).1
    have hw : (T.destroy h1).vec? C.wptr = some v := by rw [hC]; exact halive
    have hd := deref_of_valid C _ v hw hi
    have hsv : v[C.curr] = s := by
      have := List.getElem?_eq_getElem hi
      rw [hs] at this
      exact (Option.some.inj this).symm
    rw [hsv] at hd
    exact ⟨hd, hd⟩
  · intro hone
    apply vec?_none_of_use_count
    simp only [StrBlob.destroy, use_count_release, c3, hone]

/-- A blob a, b with one owner is copied: after the first handle is destroyed
the cursor at index 1 still dereferences to b. -/
theorem shared_ownership_witness :
    Heap.vec? [⟨["a", "b"], 1⟩] (StrBlob.mk (some 0)).data = some ["a", "b"] ∧
      StrBlob.copy ⟨some 0⟩ [⟨["a", "b"], 1⟩] = (⟨some 0⟩, [⟨["a", "b"], 2⟩]) ∧
      StrBlobPtr.deref ⟨some 0, 1⟩ (StrBlob.destroy ⟨some 0⟩ [⟨["a", "b"], 2⟩]) =
        (.ok "b", StrBlob.destroy ⟨some 0⟩ [⟨["a", "b"], 2⟩]) :=
  ⟨rfl, rfl, ((shared_ownership [⟨["a", "b"], 1⟩] ⟨some 0⟩ ⟨some 0⟩ [⟨["a", "b"], 2⟩]
    ["a", "b"] rfl rfl).2.2.2.2.2.2.2.1 ⟨some 0, 1⟩ "b" rfl rfl).1⟩

/-- C16: every call validates against the current state of the storage.  For
a cursor `C` bound to a live `StrBlob` `S` and any calls made on `S`
afterwards, `C.deref()` returns normally exactly when the index of `C` is
below the current size, and then returns the current element at that index;
at or past the current size it throws `std::out_of_range`.  The current
sequence is the one the calls describe.  In particular `S.end()` taken before
`push_back(t)` dereferences to `t` afterwards. -/
theorem deref_sees_current_state (h : Heap) (S : StrBlob) (v : List String)
    (C : StrBlobPtr) (calls : List Call) (D : StrBlobPtr)
    (hS : h.vec? S.data = some v) (hC : C.wptr = S.data) :
    (∃ w, (run_calls S calls D h).2.2.vec? S.data = some w ∧ w = seq_after v calls ∧
      S.size (run_calls S calls D h).2.2 = .ok w.length ∧
      ((∃ s, (C.deref (run_calls S calls D h).2.2).1 = .ok s) ↔ C.curr < w.length) ∧
      (∀ s, (C.deref (run_calls S calls D h).2.2).1 = .ok s ↔ w[C.curr]? = some s) ∧
      (w.length ≤ C.curr →
        C.deref (run_calls S calls D h).2.2 =
          (.error (.out_of_range "dereference past end"), (run_calls S calls D h).2.2))) ∧
    (∀ (t : String) (e : StrBlobPtr), S.end_ h = (.ok e, h) →
      e.deref (S.push_back t h).2 = (.ok t, (S.push_back t h).2)) := by
  have hvec := run_calls_vec? S calls D h v hS
  have hw : (run_calls S calls D h).2.2.vec? C.wptr = some (seq_after v calls) := by
    rw [hC]; exact hvec
  refine ⟨⟨seq_after v calls, hvec, rfl, by simp [StrBlob.size, hvec], ?_, ?_, ?_⟩, ?_⟩
  · by_cases hi : C.curr < (seq_after v calls).length
    · simp [deref_of_valid C _ _ hw hi, hi]
    · simp [deref_of_past C _ _ hw (Nat.le_of_not_lt hi), hi]
  · intro s
    by_cases hi : C.curr < (seq_after v calls).length
    · simp [deref_of_valid C _ _ hw hi, List.getElem?_eq_getElem hi]
    · have hnone : (seq_after v calls)[C.curr]? = none :=
        List.getElem?_eq_none (Nat.le_of_not_lt hi)
      simp [deref_of_past C _ _ hw (Nat.le_of_not_lt hi), hnone]
  · intro hle
    exact deref_of_past C _ _ hw hle
  · intro t e he
    simp only [StrBlob.end_, hS, Prod.mk.injEq, Except.ok.injEq, and_true] at he
    subst he
    have hp := (push_back_vec? S t h v hS).2
    have hlt : v.length < (v ++ [t]).length := by simp
    have := deref_of_valid (StrBlobPtr.mk_at S v.length) _ (v ++ [t]) hp hlt
    rw [this]
    simp [StrBlobPtr.mk_at]

/-- The blob a, b and the cursor at index 1: after two pops the cursor is out
of range, after a pop and a push of z it dereferences to z. -/
theorem deref_sees_current_state_witness :
    Heap.vec? [⟨["a", "b"], 1⟩] (StrBlob.mk (some 0)).data = some ["a", "b"] ∧
      StrBlobPtr.deref ⟨some 0, 1⟩
        (run_calls ⟨some 0⟩ [.pop_back, .push_back "z"] StrBlobPtr.mk_default
          [⟨["a", "b"], 1⟩]).2.2 = (.ok "z", [⟨["a", "z"], 1⟩]) ∧
      StrBlobPtr.deref ⟨some 0, 1⟩
        (run_calls ⟨some 0⟩ [.pop_back, .pop_back] StrBlobPtr.mk_default
          [⟨["a", "b"], 1⟩]).2.2 =
        (.error (.out_of_range "dereference past end"),
          (run_calls ⟨some 0⟩ [.pop_back, .pop_back] StrBlobPtr.mk_default
            [⟨["a", "b"], 1⟩]).2.2) :=
  ⟨rfl, by decide,
    (deref_sees_current_state [⟨["a", "b"], 1⟩] ⟨some 0⟩ ["a", "b"] ⟨some 0, 1⟩
      [.pop_back, .pop_back] StrBlobPtr.mk_default rfl rfl).1.elim
      (fun w hw => hw.2.2.2.2.2 (by rw [hw.2.1]; decide))⟩

/-- C17: failure is atomic.  Whenever `pop_back()` throws, the heap, hence the
sequence, is what it was before the call (and a blob that threw because it
was empty is still empty); whenever `deref()` or `incr()` throws, the heap is
what it was, and `incr()` leaves the cursor with the index and the binding it
had. -/
theorem failure_is_atomic (S : StrBlob) (C : StrBlobPtr) (h : Heap) :
    (∀ e, (S.pop_back h).1 = .error e → (S.pop_back h).2 = h) ∧
    (∀ m, (S.pop_back h).1 = .error (.out_of_range m) →
      S.empty h = .ok true ∧ S.empty (S.pop_back h).2 = .ok true) ∧
    (∀ e, (C.deref h).1 = .error e → (C.deref h).2 = h) ∧
    (∀ e, (C.incr h).1 = .error e → (C.incr h).2 = (C, h)) := by
  have hpop : ∀ e, (S.pop_back h).1 = .error e → (S.pop_back h).2 = h := by
    intro e
    unfold StrBlob.pop_back
    split
    · intro _; rfl
    · split
      · intro hc; cases hc
      · intro _; rfl
  refine ⟨hpop, ?_, fun e _ => deref_heap C h, ?_⟩
  · intro m hm
    rw [hpop _ hm]
    have hempty : S.empty h = .ok true := by
      cases hv : h.vec? S.data with
      | none => simp [StrBlob.pop_back, StrBlob.check, hv] at hm
      | some v =>
        have hp := (pop_back_vec? S h v hv).2
        rw [hm] at hp
        by_cases hne : v = []
        · simp [StrBlob.empty, hv, hne]
        · simp [hne] at hp
    exact ⟨hempty, hempty⟩
  · intro e he
    cases hv : h.vec? C.wptr with
    | none => rw [incr_of_gone C h hv]
    | some v =>
      by_cases hi : C.curr < v.length
      · rw [incr_of_valid C h v hv hi] at he
        cases he
      · rw [incr_of_past C h v hv (Nat.le_of_not_lt hi)]

/-- An empty blob and its end cursor: the failing `pop_back` and the failing
`incr` leave everything as it was. -/
theorem failure_is_atomic_witness :
    (StrBlob.pop_back ⟨some 0⟩ [⟨[], 1⟩]).1 =
        .error (.out_of_range "pop_back on empty StrBlob") ∧
      (StrBlob.pop_back ⟨some 0⟩ [⟨[], 1⟩]).2 = [⟨[], 1⟩] ∧
      (StrBlobPtr.incr ⟨some 0, 0⟩ [⟨[], 1⟩]).2 = (⟨some 0, 0⟩, [⟨[], 1⟩]) :=
  ⟨rfl, (failure_is_atomic ⟨some 0⟩ ⟨some 0, 0⟩ [⟨[], 1⟩]).1 _ rfl,
    (failure_is_atomic ⟨some 0⟩ ⟨some 0, 0⟩ [⟨[], 1⟩]).2.2.2 _ rfl⟩

/-- C18: the index invariant.  For a `StrBlob` `S` with live storage and a
cursor obtained from `S.begin()` or `S.end()`, after any calls of `incr()` on
the cursor, returning or throwing, and of `push_back` on `S`, with no
`pop_back`, the cursor is still bound to `S` and its index is at most
`S.size()`.  With that size a `size_t` value the index is the initial index
plus the number of `incr()` calls that returned: no increment wrapped
around. -/
theorem cursor_index_invariant (h : Heap) (S : StrBlob) (v : List String)
    (D : StrBlobPtr) (calls : List Call)
    (hS : h.vec? S.data = some v)
    (hD : S.begin h = (.ok D, h) ∨ S.end_ h = (.ok D, h))
    (hnp : ∀ c ∈ calls, c ≠ Call.pop_back) :
    ∃ n, S.size (run_calls S calls D h).2.2 = .ok n ∧
      (run_calls S calls D h).2.1.wptr = S.data ∧
      (run_calls S calls D h).2.1.curr ≤ n ∧
      (n ≤ SIZE_MAX →
        (run_calls S calls D h).2.1.curr =
          D.curr + count_ok .incr calls (run_calls S calls D h).1) := by
  have hbound : D.wptr = S.data ∧ D.curr ≤ v.length := by
    rcases hD with hD | hD
    · simp only [StrBlob.begin, Prod.mk.injEq, Except.ok.injEq, and_true] at hD
      subst hD
      exact ⟨rfl, Nat.zero_le _⟩
    · simp only [StrBlob.end_, hS, Prod.mk.injEq, Except.ok.injEq, and_true] at hD
      subst hD
      exact ⟨rfl, Nat.le_refl _⟩
  obtain ⟨i1, i2, -, i4⟩ := run_calls_index S calls D h v hS hbound.1 hbound.2 hnp
  have hvec := run_calls_vec? S calls D h v hS
  exact ⟨(seq_after v calls).length, by simp [StrBlob.size, hvec], i1, i2, i4⟩

/-- The blob a from `begin()`: two increments of which the second throws, a
push, and two more increments leave the cursor at index 2, the size. -/
theorem cursor_index_invariant_witness :
    Heap.vec? [⟨["a"], 1⟩] (StrBlob.mk (some 0)).data = some ["a"] ∧
      (run_calls ⟨some 0⟩ [.incr, .incr, .push_back "b", .incr, .incr] ⟨some 0, 0⟩
        [⟨["a"], 1⟩]).2 = (⟨some 0, 2⟩, [⟨["a", "b"], 1⟩]) ∧
      ∃ n, StrBlob.size ⟨some 0⟩ (run_calls ⟨some 0⟩
          [.incr, .incr, .push_back "b", .incr, .incr] ⟨some 0, 0⟩ [⟨["a"], 1⟩]).2.2 = .ok n ∧
        (run_calls ⟨some 0⟩ [.incr, .incr, .push_back "b", .incr, .incr] ⟨some 0, 0⟩
          [⟨["a"], 1⟩]).2.1.wptr = (StrBlob.mk (some 0)).data ∧
        (run_calls ⟨some 0⟩ [.incr, .incr, .push_back "b", .incr, .incr] ⟨some 0, 0⟩
          [⟨["a"], 1⟩]).2.1.curr ≤ n :=
  ⟨rfl, by decide,
    (cursor_index_invariant [⟨["a"], 1⟩] ⟨some 0⟩ ["a"] ⟨some 0, 0⟩
      [.incr, .incr, .push_back "b", .incr, .incr] rfl (Or.inl rfl) (by decide)).imp
      (fun _ hn => ⟨hn.1, hn.2.1, hn.2.2.1⟩)⟩

/-- The exclusions in C18 are needed: after a `pop_back` the cursor `end()`
taken before it is past the size, and the two argument constructor makes a
cursor past the size. -/
theorem index_invariant_exclusions :
    (run_calls ⟨some 0⟩ [.pop_back] ⟨some 0, 1⟩ [⟨["a"], 1⟩]).2 =
        (⟨some 0, 1⟩, [⟨[], 1⟩]) ∧
      StrBlob.end_ ⟨some 0⟩ [⟨["a"], 1⟩] = (.ok ⟨some 0, 1⟩, [⟨["a"], 1⟩]) ∧
      (StrBlobPtr.mk_at ⟨some 0⟩ 5).curr = 5 := by
  decide

end StrBlobModel

namespace Exercise12

theorem list_set_self {α : Type} (l : List α) (i : Nat) (x : α) (hx : l[i]? = some x) :
    l.set i x = l := by
  apply List.ext_getElem?
  intro j
  by_cases hj : i = j
  · subst hj
    rw [List.getElem?_set_self (List.getElem?_eq_some.1 hx).1, hx]
  · rw [List.getElem?_set_ne hj]

theorem print_elems_eq (v : List Int) : ∀ cout : String,
    print_elems v cout = cout ++ spec_text v := by
  induction v with
  | nil => intro cout; simp [print_elems, spec_text]
  | cons x xs ih =>
    intro cout
    have := ih (cout ++ toString x ++ " ")
    simp only [print_elems, List.foldl_cons] at this ⊢
    rw [this]
    simp only [spec_text, String.append_assoc]

theorem populate_Ptr_loop_run (p : Nat) (xs : List Int) :
    ∀ (w : World) (v : List Int), w.free_store[p]? = some (some v) →
      ∃ w1, populate_Ptr_loop p xs w = some w1 ∧
        w1.free_store[p]? = some (some (v ++ xs)) ∧ w1.cin = [] ∧
        w1.cout = (List.replicate (xs.length + 1) "Pls Enter:\n").foldl (· ++ ·) w.cout := by
  induction xs with
  | nil =>
    intro w v hv
    exact ⟨_, rfl, by simpa using hv, rfl, by simp [List.replicate]⟩
  | cons i rest ih =>
    intro w v hv
    have hlt : p < w.free_store.length := (List.getElem?_eq_some.1 hv).1
    obtain ⟨w1, h1, h2, h3, h4⟩ := ih
      { w with cout := w.cout ++ "Pls Enter:\n", cin := rest,
               free_store := w.free_store.set p (some (v ++ [i])) } (v ++ [i])
      (by simp [List.getElem?_set_self hlt])
    refine ⟨w1, ?_, by simpa using h2, h3, ?_⟩
    · simp only [populate_Ptr_loop, Ptr_push_back, hv]
      exact h1
    · rw [h4]
      simp [List.replicate]

theorem populate_Sptr_loop_run (q : Nat) (xs : List Int) :
    ∀ (w : World) (b : Block), w.blocks[q]? = some b → b.use_count ≠ 0 →
      ∃ w1, populate_Sptr_loop q xs w = some w1 ∧
        w1.blocks[q]? = some { vec := b.vec ++ xs, use_count := b.use_count } ∧ w1.cin = [] ∧
        w1.cout = (List.replicate (xs.length + 1) "Pls Enter:\n").foldl (· ++ ·) w.cout := by
  induction xs with
  | nil =>
    intro w b hb _
    exact ⟨_, rfl, by simpa using hb, rfl, by simp [List.replicate]⟩
  | cons i rest ih =>
    intro w b hb h0
    have hlt : q < w.blocks.length := (List.getElem?_eq_some.1 hb).1
    obtain ⟨w1, h1, h2, h3, h4⟩ := ih
      { w with cout := w.cout ++ "Pls Enter:\n", cin := rest,
               blocks := w.blocks.set q { b with vec := b.vec ++ [i] } }
      { b with vec := b.vec ++ [i] } (by simp [List.getElem?_set_self hlt]) h0
    refine ⟨w1, ?_, by simpa using h2, h3, ?_⟩
    · simp only [populate_Sptr_loop, Sptr_push_back, hb, h0, if_false]
      exact h1
    · rw [h4]
      simp [List.replicate]

/-- C19: the `shared_ptr` version of exercise 12.6 behaves as the
`new`/`delete` version.  For every input, with `x1 .. xn` the ints extracted
before the first failing extraction: both `populate` overloads, given the
empty vector that `make_dynamically` or `make_with_shared_ptr` made, return
the vector they were given, holding exactly `x1 .. xn` in order; both `print`
overloads append the same text to `std::cout`, every value in order followed
by one space; and the two `main` functions return 0 with the same output. -/
theorem shared_ptr_redo_equivalent (w : World) :
    ∃ (p q : Nat) (wm w1 w2 um u1 u2 r1 r2 : World),
      make_dynamically w = (p, wm) ∧ wm.free_store[p]? = some (some []) ∧
      populate_Ptr p wm = some (p, w1) ∧ w1.free_store[p]? = some (some w.cin) ∧
      print_Ptr p w1 = some w2 ∧ w2.cout = w1.cout ++ spec_text w.cin ∧
      make_with_shared_ptr w = (q, um) ∧ um.blocks[q]? = some ⟨[], 1⟩ ∧
      populate_Sptr q um = some (q, u1) ∧ u1.blocks[q]? = some ⟨w.cin, 1⟩ ∧
      print_Sptr q (Sptr_copy q u1) = some u2 ∧ u2.cout = u1.cout ++ spec_text w.cin ∧
      u2.blocks[q]? = some ⟨w.cin, 1⟩ ∧
      u1.cout = w1.cout ∧ u2.cout = w2.cout ∧
      main_12_06 w = some (0, r1) ∧ main_12_07 w = some (0, r2) ∧ r1.cout = r2.cout ∧
      r1.cout = w2.cout ++ "\n" := by
  have hp0 : (make_dynamically w).2.free_store[(make_dynamically w).1]? = some (some []) := by
    simp [make_dynamically]
  have hq0 : (make_with_shared_ptr w).2.blocks[(make_with_shared_ptr w).1]? =
      some ⟨[], 1⟩ := by
    simp [make_with_shared_ptr]
  obtain ⟨w1, a1, a2, -, a4⟩ :=
    populate_Ptr_loop_run (make_dynamically w).1 w.cin (make_dynamically w).2 [] hp0
  obtain ⟨u1, b1, b2, -, b4⟩ :=
    populate_Sptr_loop_run (make_with_shared_ptr w).1 w.cin (make_with_shared_ptr w).2
      ⟨[], 1⟩ hq0 (by decide)
  simp only [List.nil_append] at a2 b2
  have hpop1 : populate_Ptr (make_dynamically w).1 (make_dynamically w).2 =
      some ((make_dynamically w).1, w1) := by
    have hcin : (make_dynamically w).2.cin = w.cin := rfl
    simp only [populate_Ptr, hcin, a1]
  have hpop2 : populate_Sptr (make_with_shared_ptr w).1 (make_with_shared_ptr w).2 =
      some ((make_with_shared_ptr w).1, u1) := by
    have hcin : (make_with_shared_ptr w).2.cin = w.cin := rfl
    simp only [populate_Sptr, hcin, b1]
  have hpr1 : print_Ptr (make_dynamically w).1 w1 =
      some { w1 with cout := w1.cout ++ spec_text w.cin } := by
    simp only [print_Ptr, a2, print_elems_eq]
  have hlt : (make_with_shared_ptr w).1 < u1.blocks.length := (List.getElem?_eq_some.1 b2).1
  have hpr2 : print_Sptr (make_with_shared_ptr w).1 (Sptr_copy (make_with_shared_ptr w).1 u1) =
      some { u1 with cout := u1.cout ++ spec_text w.cin } := by
    simp only [Sptr_copy, b2, print_Sptr, List.getElem?_set_self hlt, print_elems_eq,
      Sptr_release]
    simp only [Nat.reduceAdd, OfNat.ofNat_ne_zero, if_false, Nat.reduceLeDiff,
      List.set_set, Nat.add_one_sub_one]
    rw [list_set_self _ _ _ b2]
  have hcout : u1.cout = w1.cout := by rw [a4, b4]; rfl
  refine ⟨(make_dynamically w).1, (make_with_shared_ptr w).1, (make_dynamically w).2, w1,
    { w1 with cout := w1.cout ++ spec_text w.cin }, (make_with_shared_ptr w).2, u1,
    { u1 with cout := u1.cout ++ spec_text w.cin },
    { w1 with cout := w1.cout ++ spec_text w.cin ++ "\n",
              free_store := w1.free_store.set (make_dynamically w).1 none },
    Sptr_release (make_with_shared_ptr w).1
      { u1 with cout := u1.cout ++ spec_text w.cin ++ "\n" },
    rfl, hp0, hpop1, a2, hpr1, rfl, rfl, hq0, hpop2, b2, hpr2, rfl, b2, hcout, ?_, ?_, ?_, ?_,
    rfl⟩
  · simp only [hcout]
  · simp only [main_12_06, hpop1, hpr1]
  · simp only [main_12_07, hpop2, hpr2]
  · simp only [Sptr_release, b2, hcout]
    simp

/-- The input 1, -2, 30: both programs write four prompts, then the three
values each followed by a space, then a newline. -/
theorem shared_ptr_redo_equivalent_witness :
    (main_12_06 ⟨[1, -2, 30], "", [], []⟩).map (fun r => (r.1, r.2.cout)) =
        some (0, "Pls Enter:\nPls Enter:\nPls Enter:\nPls Enter:\n1 -2 30 \n") ∧
      ∃ (p q : Nat) (wm w1 w2 um u1 u2 r1 r2 : World),
        make_dynamically ⟨[1, -2, 30], "", [], []⟩ = (p, wm) ∧
        wm.free_store[p]? = some (some []) ∧
        populate_Ptr p wm = some (p, w1) ∧
        w1.free_store[p]? = some (some (World.mk [1, -2, 30] "" [] []).cin) ∧
        print_Ptr p w1 = some w2 ∧
        w2.cout = w1.cout ++ spec_text (World.mk [1, -2, 30] "" [] []).cin ∧
        make_with_shared_ptr ⟨[1, -2, 30], "", [], []⟩ = (q, um) ∧
        um.blocks[q]? = some ⟨[], 1⟩ ∧
        populate_Sptr q um = some (q, u1) ∧
        u1.blocks[q]? = some ⟨(World.mk [1, -2, 30] "" [] []).cin, 1⟩ ∧
        print_Sptr q (Sptr_copy q u1) = some u2 ∧
        u2.cout = u1.cout ++ spec_text (World.mk [1, -2, 30] "" [] []).cin ∧
        u2.blocks[q]? = some ⟨(World.mk [1, -2, 30] "" [] []).cin, 1⟩ ∧
        u1.cout = w1.cout ∧ u2.cout = w2.cout ∧
        main_12_06 ⟨[1, -2, 30], "", [], []⟩ = some (0, r1) ∧
        main_12_07 ⟨[1, -2, 30], "", [], []⟩ = some (0, r2) ∧ r1.cout = r2.cout ∧
        r1.cout = w2.cout ++ "\n" :=
  ⟨by decide, shared_ptr_redo_equivalent ⟨[1, -2, 30], "", [], []⟩⟩

end Exercise12
